import Mathlib

/-!
Verification development for the x-ui client-IP enforcement job
(web/job/check_client_ip_job.go and its collaborators).

The Go source is shallowly embedded below.  Machine strings are `String`
(worked on through their `List Char` data), integers stored in the database
are `Int` (Go `int`), and fallible operations return `Option`.  The one
Go panic on this path (the slice index out of range in the email split) is
modelled by an `Option.none` result of the enclosing operation.  Database
rows live in plain lists; a gorm `UPDATE ... WHERE c` is a `List.map` that
rewrites exactly the rows satisfying `c`, and a gorm v2 `Find` into a
single struct is `List.find?`, with the zero-row case yielding the
pre-allocated zero-value record and no error.
`xrayService.SetToNeedRestart()` invocations are counted by a `Nat` field
so that "restart signalled exactly once" is expressible.
-/

/-! ## Character-list utilities (Go `strings` package behaviour) -/

/-- Whether `needle` occurs at the very start of `hay`. -/
def startsWithCL : List Char → List Char → Bool
  | [], _ => true
  | _ :: _, [] => false
  | a :: as, b :: bs => a = b && startsWithCL as bs

/-- Whether `needle` occurs anywhere inside `hay` (substring containment). -/
def containsCL (hay needle : List Char) : Bool :=
  startsWithCL needle hay ||
    match hay with
    | [] => false
    | _ :: t => containsCL t needle

/-- Fuel-driven worker for `splitGo`; the fuel bounds the number of steps. -/
def splitGoAux : Nat → List Char → List Char → List Char → List (List Char)
  | 0, _, acc, rest => [acc.reverse ++ rest]
  | _ + 1, _, acc, [] => [acc.reverse]
  | fuel + 1, sep, acc, c :: cs =>
    if startsWithCL sep (c :: cs) then
      acc.reverse :: splitGoAux fuel sep [] ((c :: cs).drop sep.length)
    else
      splitGoAux fuel sep (c :: acc) cs

/-- Go `strings.Split(s, sep)` for a non-empty separator: splits around each
leftmost non-overlapping instance of `sep`. -/
def splitGo (sep s : List Char) : List (List Char) :=
  splitGoAux (s.length + 1) sep [] s

/-- The ASCII white-space characters trimmed by Go `strings.TrimSpace`
(the log lines handled by this job are ASCII, so the extra Unicode space
code points trimmed by Go are not reachable here). -/
def isSpaceGo (c : Char) : Bool :=
  c = ' ' || c = '\t' || c = '\n' || c = '\x0b' || c = '\x0c' || c = '\r'

/-- Go `strings.TrimSpace` on a character list. -/
def trimGo (s : List Char) : List Char :=
  ((s.dropWhile isSpaceGo).reverse.dropWhile isSpaceGo).reverse

/-- ASCII lower-casing of a character list (SQLite `LIKE` is
case-insensitive over ASCII). -/
def toLowerCL (cs : List Char) : List Char := cs.map Char.toLower

/-! ## Go `strconv.Atoi` -/

/-- Numeric value of a digit string, most significant digit first. -/
def digitsVal (ds : List Char) : Nat :=
  ds.foldl (fun acc c => acc * 10 + (c.toNat - 48)) 0

/-- Digits part of `strconv.Atoi`: all characters must be decimal digits and
the value must fit in a signed 64-bit integer, otherwise Go reports an
error. -/
def goAtoiDigits (ds : List Char) (neg : Bool) : Option Int :=
  if ds = [] then none
  else if ds.all Char.isDigit then
    let n := digitsVal ds
    if neg then
      if n ≤ 9223372036854775808 then some (-(n : Int)) else none
    else
      if n ≤ 9223372036854775807 then some (n : Int) else none
  else none

/-- Go `strconv.Atoi`: optional sign followed by decimal digits, value
within the `int64` range; `none` models a non-nil error. -/
def goAtoi (s : String) : Option Int :=
  match s.data with
  | [] => none
  | '+' :: ds => goAtoiDigits ds false
  | '-' :: ds => goAtoiDigits ds true
  | ds => goAtoiDigits ds false

/-! ## The two regular expressions applied to each log line

`regexp.Compile` of a constant pattern never fails, so the ignored error in
the source is dead.  `FindString` returns the leftmost match; on the
patterns below the greedy quantifier semantics coincide with maximal munch,
which is what the functions here implement. -/

/-- Maximal run of decimal digits at the front of the list, with the rest. -/
def takeDigitsCL : List Char → List Char × List Char
  | [] => ([], [])
  | c :: cs =>
    if c.isDigit then
      let p := takeDigitsCL cs
      (c :: p.1, p.2)
    else ([], c :: cs)

/-- Match of the pattern `[0-9]+\.[0-9]+\.[0-9]+\.[0-9]+` anchored at the
start of the list, if any. -/
def matchIPv4At (cs : List Char) : Option (List Char) :=
  let p1 := takeDigitsCL cs
  if p1.1 = [] then none else
  match p1.2 with
  | '.' :: r1 =>
    let p2 := takeDigitsCL r1
    if p2.1 = [] then none else
    match p2.2 with
    | '.' :: r2 =>
      let p3 := takeDigitsCL r2
      if p3.1 = [] then none else
      match p3.2 with
      | '.' :: r3 =>
        let p4 := takeDigitsCL r3
        if p4.1 = [] then none else
        some (p1.1 ++ '.' :: p2.1 ++ '.' :: p3.1 ++ '.' :: p4.1)
      | _ => none
    | _ => none
  | _ => none

/-- `ipRegx.FindString(line)`: leftmost match of the IPv4 pattern. -/
def findIPv4 : List Char → Option (List Char)
  | [] => none
  | c :: cs =>
    match matchIPv4At (c :: cs) with
    | some m => some m
    | none => findIPv4 cs

/-- The literal part of the pattern `email:.+`. -/
def emailLabel : List Char := 'e' :: 'm' :: 'a' :: 'i' :: 'l' :: ':' :: []

/-- `emailRegx.FindString(line)`: leftmost occurrence of `email:` followed
by at least one character other than a newline; the greedy `.+` extends the
match to the end of the line. -/
def findEmailMatch : List Char → Option (List Char)
  | [] => none
  | c :: cs =>
    if startsWithCL emailLabel (c :: cs) then
      let seg := ((c :: cs).drop 6).takeWhile (fun ch => ch ≠ '\n')
      if seg = [] then findEmailMatch cs else some (emailLabel ++ seg)
    else findEmailMatch cs

/-- The literal part of the pattern `"limitIp": .+`. -/
def limitLabel : List Char := ("\"limitIp\": ").data

/-- `limitIpRegx.FindString(settings)`: leftmost occurrence of the literal
label followed by at least one character other than a newline, extended to
the end of that line. -/
def findLimitMatch : List Char → Option (List Char)
  | [] => none
  | c :: cs =>
    if startsWithCL limitLabel (c :: cs) then
      let seg := ((c :: cs).drop 11).takeWhile (fun ch => ch ≠ '\n')
      if seg = [] then findLimitMatch cs else some (limitLabel ++ seg)
    else findLimitMatch cs

/-! ## JSON (Go `encoding/json.Unmarshal` into the `justToGetEmail` shape)

`json.Unmarshal` first validates the whole document; a syntax error leaves
the destination untouched (so `Clients` stays empty).  On a valid document
it decodes leniently: a type mismatch leaves the corresponding field at its
zero value and decoding continues.  The parser below implements the JSON
grammar accepted by Go's scanner; escape `\uXXXX` is mapped through
`Char.ofNat` (surrogate-pair combination, which no claim exercises, is not
modelled). -/

/-- Parsed JSON values.  Numbers keep their raw text: the job never reads a
numeric value out of the parsed document. -/
inductive JVal where
  | null : JVal
  | bool (b : Bool) : JVal
  | num (raw : List Char) : JVal
  | str (s : List Char) : JVal
  | arr (elems : List JVal) : JVal
  | obj (fields : List (List Char × JVal)) : JVal

/-- JSON insignificant white space (Go scanner set). -/
def skipWsJ (cs : List Char) : List Char :=
  cs.dropWhile (fun c => c = ' ' || c = '\t' || c = '\n' || c = '\r')

/-- Value of one hexadecimal digit. -/
def hexVal (c : Char) : Option Nat :=
  if '0' ≤ c ∧ c ≤ '9' then some (c.toNat - 48)
  else if 'a' ≤ c ∧ c ≤ 'f' then some (c.toNat - 87)
  else if 'A' ≤ c ∧ c ≤ 'F' then some (c.toNat - 55)
  else none

/-- Body of a JSON string after the opening quote: returns the decoded
characters and the input after the closing quote. -/
def parseJStringAux : Nat → List Char → Option (List Char × List Char)
  | 0, _ => none
  | fuel + 1, cs =>
    match cs with
    | [] => none
    | '"' :: rest => some ([], rest)
    | '\\' :: e :: rest =>
      let dec : Option (Char × List Char) :=
        match e with
        | '"' => some ('"', rest)
        | '\\' => some ('\\', rest)
        | '/' => some ('/', rest)
        | 'b' => some ('\x08', rest)
        | 'f' => some ('\x0c', rest)
        | 'n' => some ('\n', rest)
        | 'r' => some ('\r', rest)
        | 't' => some ('\t', rest)
        | 'u' =>
          match rest with
          | h1 :: h2 :: h3 :: h4 :: rest2 =>
            match hexVal h1, hexVal h2, hexVal h3, hexVal h4 with
            | some v1, some v2, some v3, some v4 =>
              some (Char.ofNat (((v1 * 16 + v2) * 16 + v3) * 16 + v4), rest2)
            | _, _, _, _ => none
          | _ => none
        | _ => none
      match dec with
      | none => none
      | some (ch, rest2) =>
        match parseJStringAux fuel rest2 with
        | none => none
        | some (s, rest3) => some (ch :: s, rest3)
    | c :: rest =>
      if c.toNat < 32 then none
      else
        match parseJStringAux fuel rest with
        | none => none
        | some (s, rest2) => some (c :: s, rest2)

/-- A JSON number token at the front of the input: `-?(0|[1-9][0-9]*)`
then an optional fraction and an optional exponent.  Returns the raw token
and the remaining input. -/
def parseJNumber (cs : List Char) : Option (List Char × List Char) :=
  let sign : List Char × List Char :=
    match cs with
    | '-' :: rest => (['-'], rest)
    | _ => ([], cs)
  let intPart : Option (List Char × List Char) :=
    match sign.2 with
    | '0' :: rest => some (['0'], rest)
    | c :: rest =>
      if c.isDigit then
        let p := takeDigitsCL rest
        some (c :: p.1, p.2)
      else none
    | [] => none
  match intPart with
  | none => none
  | some (ip, afterInt) =>
    let fracPart : Option (List Char × List Char) :=
      match afterInt with
      | '.' :: rest =>
        let p := takeDigitsCL rest
        if p.1 = [] then none else some ('.' :: p.1, p.2)
      | _ => some ([], afterInt)
    match fracPart with
    | none => none
    | some (fp, afterFrac) =>
      let expPart : Option (List Char × List Char) :=
        match afterFrac with
        | e :: rest =>
          if e = 'e' ∨ e = 'E' then
            let signedRest : List Char × List Char :=
              match rest with
              | s :: rest2 => if s = '+' ∨ s = '-' then ([s], rest2) else ([], rest)
              | [] => ([], [])
            let p := takeDigitsCL signedRest.2
            if p.1 = [] then none else some (e :: signedRest.1 ++ p.1, p.2)
          else some ([], afterFrac)
        | [] => some ([], [])
      match expPart with
      | none => none
      | some (ep, afterExp) => some (sign.1 ++ ip ++ fp ++ ep, afterExp)

mutual

/-- A JSON value at the front of the input (after skipping white space). -/
def parseJVal : Nat → List Char → Option (JVal × List Char)
  | 0, _ => none
  | fuel + 1, cs =>
    match skipWsJ cs with
    | 'n' :: 'u' :: 'l' :: 'l' :: rest => some (.null, rest)
    | 't' :: 'r' :: 'u' :: 'e' :: rest => some (.bool true, rest)
    | 'f' :: 'a' :: 'l' :: 's' :: 'e' :: rest => some (.bool false, rest)
    | '"' :: rest =>
      match parseJStringAux (rest.length + 1) rest with
      | some (s, rest2) => some (.str s, rest2)
      | none => none
    | '[' :: rest =>
      match skipWsJ rest with
      | ']' :: rest2 => some (.arr [], rest2)
      | _ =>
        match parseJElems fuel rest with
        | some (vs, rest2) => some (.arr vs, rest2)
        | none => none
    | '\x7b' :: rest =>
      match skipWsJ rest with
      | '\x7d' :: rest2 => some (.obj [], rest2)
      | _ =>
        match parseJMembers fuel rest with
        | some (fs, rest2) => some (.obj fs, rest2)
        | none => none
    | c :: rest =>
      if c = '-' ∨ c.isDigit then
        match parseJNumber (c :: rest) with
        | some (raw, rest2) => some (.num raw, rest2)
        | none => none
      else none
    | [] => none

/-- Non-empty comma-separated list of array elements, ending at `]`. -/
def parseJElems : Nat → List Char → Option (List JVal × List Char)
  | 0, _ => none
  | fuel + 1, cs =>
    match parseJVal fuel cs with
    | none => none
    | some (v, rest) =>
      match skipWsJ rest with
      | ',' :: rest2 =>
        match parseJElems fuel rest2 with
        | none => none
        | some (vs, rest3) => some (v :: vs, rest3)
      | ']' :: rest2 => some ([v], rest2)
      | _ => none

/-- Non-empty comma-separated list of object members, ending at the
closing brace. -/
def parseJMembers : Nat → List Char → Option (List (List Char × JVal) × List Char)
  | 0, _ => none
  | fuel + 1, cs =>
    match skipWsJ cs with
    | '"' :: rest =>
      match parseJStringAux (rest.length + 1) rest with
      | none => none
      | some (k, rest2) =>
        match skipWsJ rest2 with
        | ':' :: rest3 =>
          match parseJVal fuel rest3 with
          | none => none
          | some (v, rest4) =>
            match skipWsJ rest4 with
            | ',' :: rest5 =>
              match parseJMembers fuel rest5 with
              | none => none
              | some (fs, rest6) => some ((k, v) :: fs, rest6)
            | '\x7d' :: rest5 => some ([(k, v)], rest5)
            | _ => none
        | _ => none
    | _ => none

end

/-- Whole-document parse, Go `checkValid` style: one JSON value followed by
nothing but white space. -/
def parseJsonTop (s : String) : Option JVal :=
  match parseJVal (2 * s.data.length + 4) s.data with
  | none => none
  | some (v, rest) => if skipWsJ rest = [] then some v else none

/-- Go struct-field selection for one object: document keys are matched
case-insensitively against the field's json tag, later occurrences
overwriting earlier ones. -/
def lookupFieldLast (fields : List (List Char × JVal)) (key : List Char) : Option JVal :=
  match fields with
  | [] => none
  | (k, v) :: rest =>
    match lookupFieldLast rest key with
    | some v' => some v'
    | none => if toLowerCL k = toLowerCL key then some v else none

/-- Decoding of one array element into `getEmail`: anything that is not an
object with a string-typed `email` member leaves the field at its zero
value `""`. -/
def clientEmailOf (v : JVal) : String :=
  match v with
  | .obj fs =>
    match lookupFieldLast fs ('e' :: 'm' :: 'a' :: 'i' :: 'l' :: []) with
    | some (.str s) => String.mk s
    | _ => ""
  | _ => ""

/-- `json.Unmarshal([]byte(settings), &justToGetEmail{})` followed by
reading `.Clients` and projecting each element's `.Email`. -/
def unmarshalClients (settings : String) : List String :=
  match parseJsonTop settings with
  | none => []
  | some v =>
    match v with
    | .obj fs =>
      match lookupFieldLast fs ('c' :: 'l' :: 'i' :: 'e' :: 'n' :: 't' :: 's' :: []) with
      | some (.arr xs) => xs.map clientEmailOf
      | _ => []
    | _ => []

/-! ## Data model

Modelled from the spec: the `x-ui/database/model` package is not among the
provided sources.  Spec section 3 documents an Inbound as carrying an id,
an `enabled` flag, a `penaltyCounter` integer and an opaque `rawSettings`
document, and an IPSnapshot as the per-identity list of distinct IPs; these
are exactly the `model.Inbound` fields (`Id`, `Enable`, `Penalty`,
`Settings`) and the `model.InboundClientIps` fields (`ClientEmail`, `Ips`)
the job reads and writes.  `json.Marshal` of a `[]string` cannot fail, so
the snapshot row keeps the IP list itself instead of its JSON rendering
(the marshalling error branch in `GetInboundClientIps` is dead). -/

/-- Modelled from the spec: the fields of `model.Inbound` used by the job
(spec section 3, Inbound). -/
structure Inbound where
  id : Int
  enable : Bool
  penalty : Int
  settings : String
deriving DecidableEq

/-- Modelled from the spec: the fields of `model.InboundClientIps`
(spec section 3, IPSnapshot). -/
structure InboundClientIps where
  clientEmail : String
  ips : List String
deriving DecidableEq

/-- The mutable state the job touches: the Inbound table, the snapshot
table, and a counter of `xrayService.SetToNeedRestart()` invocations. -/
structure St where
  inbounds : List Inbound
  clientIps : List InboundClientIps
  restarts : Nat
deriving DecidableEq

/-- The run's file-system environment: the result of `GetAccessLogPath()`
(the empty string when `log.access` is missing from `bin/config.json`) and
the result of `os.ReadFile` on it (`none` models a read error, in which
case the Go byte slice is nil and the run continues on empty data). -/
structure LogEnv where
  accessLogPath : String
  readData : Option String
deriving DecidableEq

/-! ## Database helpers of the job (`check_client_ip_job.go`) -/

/-- `GetInactivePenaltyInbounds`: all inbounds with
`enable = false and penalty > -1`, in table order. -/
def GetInactivePenaltyInbounds (st : St) : List Inbound :=
  st.inbounds.filter (fun i => !i.enable && i.penalty > -1)

/-- `updateInboudPenaltyBy1`: `UPDATE inbounds SET penalty = currentPenalty
+ 1 WHERE id = ? AND enable = false`. -/
def updateInboudPenaltyBy1 (st : St) (id currentPenalty : Int) : St :=
  { st with
    inbounds := st.inbounds.map (fun i =>
      if i.id = id ∧ i.enable = false then { i with penalty := currentPenalty + 1 } else i) }

/-- `activateInboundAfterFullPenalty`: find the inbound with
`id = ? and enable = false`, signal a restart, set `Enable = true` and
`Penalty = -1` and `Save` it (a gorm `Save` updates by primary key).  When
the query returns no rows the Go code would save gorm's pre-allocated
zero-value record as a fresh row; that branch is unreachable from this
job's call site, which obtained the id from the same table, and is
modelled as a no-op. -/
def activateInboundAfterFullPenalty (st : St) (id : Int) : St :=
  match st.inbounds.find? (fun i => i.id = id ∧ i.enable = false) with
  | none => st
  | some _ =>
    { st with
      inbounds := st.inbounds.map (fun i =>
        if i.id = id then { i with enable := true, penalty := -1 } else i),
      restarts := st.restarts + 1 }

/-- `DisableInbound`: find the inbound with `id = ? and enable = true`, set
`Enable = false` and `Penalty = 0`, `Save` it (by primary key) and signal a
restart.  As above, the zero-row branch (which in Go would save the
zero-value record) is unreachable from the call site, which has just
checked `inbound.Enable` on the same table state; it is modelled as a
no-op. -/
def DisableInbound (st : St) (id : Int) : St :=
  match st.inbounds.find? (fun i => i.id = id ∧ i.enable = true) with
  | none => st
  | some _ =>
    { st with
      inbounds := st.inbounds.map (fun i =>
        if i.id = id then { i with enable := false, penalty := 0 } else i),
      restarts := st.restarts + 1 }

/-- The `settings LIKE %email%` filter of `GetInboundByEmail`: SQLite
`LIKE` is ASCII-case-insensitive substring containment (the `%`/`_`
wildcard interpretation of characters inside the email itself is not
modelled; no claim involves such an email). -/
def likeContains (settings email : String) : Bool :=
  containsCL (toLowerCL settings.data) (toLowerCL email.data)

/-- `GetInboundByEmail`: first inbound whose settings document contains the
email.  A gorm v2 `Find` into a struct pointer pre-allocates its
destination and reports no error on zero rows, so the Go function returns
a zero-value `model.Inbound` and a nil error when nothing matches; `none`
here stands for that zero-row case, for which the caller sees the zero
value. -/
def GetInboundByEmail (st : St) (clientEmail : String) : Option Inbound :=
  st.inbounds.find? (fun i => likeContains i.settings clientEmail)

/-- The limit extraction inside `GetInboundClientIps`: regex-match
`"limitIp": .+` against the settings, split the match on the label (taking
part 1 when the split produced more than one part, `"0"` otherwise) and run
`strconv.Atoi` on the result. -/
def resolveLimitIp (settings : String) : Option Int :=
  let limitIpMatch : List Char :=
    match findLimitMatch settings.data with
    | some m => m
    | none => []
  let parts := splitGo limitLabel limitIpMatch
  let tok : List Char :=
    match parts.get? 1 with
    | some t => t
    | none => '0' :: []
  goAtoi (String.mk tok)

/-- The zero value of `model.Inbound`: what a gorm v2 `Find` leaves in its
pre-allocated destination when the query returns no rows. -/
def zeroInbound : Inbound := ⟨0, false, 0, ""⟩

/-- `GetInboundClientIps`: build the snapshot row, look the inbound up by
email (a zero-row lookup yields the zero-value record, whose empty settings
resolve the limit to 0), extract its limit, and disable the inbound when
the limit is non-zero, smaller than the number of observed IPs, and the
inbound is enabled.  `(st, none)` is the `return nil` taken when
`strconv.Atoi` fails; in every other case the snapshot row is returned. -/
def GetInboundClientIps (st : St) (clientEmail : String) (ips : List String) :
    St × Option InboundClientIps :=
  let inboundClientIps : InboundClientIps := ⟨clientEmail, ips⟩
  let inbound : Inbound :=
    match GetInboundByEmail st clientEmail with
    | some ib => ib
    | none => zeroInbound
  match resolveLimitIp inbound.settings with
  | none => (st, none)
  | some limitIp =>
    if limitIp < (ips.length : Int) ∧ limitIp ≠ 0 ∧ inbound.enable = true then
      (DisableInbound st inbound.id, some inboundClientIps)
    else
      (st, some inboundClientIps)

/-! ## Harvesting (`processLogFile`) -/

/-- The separator `"email: "` used by
`ss.Split(matchesEmail, "email: ")`. -/
def emailSep : List Char := ("email: ").data

/-- Lookup in the aggregation map `InboundClientIps` (Go map access; the
model fixes first-insertion order, which only matters for the order rows
are later persisted in, never for membership). -/
def lookupIps : List (String × List String) → String → Option (List String)
  | [], _ => none
  | (e, ips) :: rest, email => if e = email then some ips else lookupIps rest email

/-- `InboundClientIps[matchesEmail] = append(InboundClientIps[matchesEmail], ip)`. -/
def addIp : List (String × List String) → String → String → List (String × List String)
  | [], email, ip => [(email, [ip])]
  | (e, ips) :: rest, email, ip =>
    if e = email then (e, ips ++ [ip]) :: rest else (e, ips) :: addIp rest email ip

/-- One iteration of the line loop in `processLogFile`.  `none` models the
index-out-of-range panic on `ss.Split(matchesEmail, "email: ")[1]` when the
matched text contains `email:` but never `email: ` with a space. -/
def processLine (emails : List String) (m : List (String × List String))
    (line : List Char) : Option (List (String × List String)) :=
  match findIPv4 line with
  | none => some m
  | some ipMatch =>
    let ip := String.mk ipMatch
    if ip = "127.0.0.1" ∨ ip = "1.1.1.1" then some m
    else
      match findEmailMatch line with
      | none => some m
      | some emailMatch =>
        match (splitGo emailSep emailMatch).get? 1 with
        | none => none
        | some t =>
          let email := String.mk (trimGo t)
          if email ∈ emails then some m
          else
            match lookupIps m email with
            | some ips => if ip ∈ ips then some m else some (addIp m email ip)
            | none => some (addIp m email ip)

/-- The `for _, line := range lines` loop. -/
def processLines (emails : List String) :
    List (List Char) → List (String × List String) → Option (List (String × List String))
  | [], m => some m
  | line :: rest, m =>
    match processLine emails m line with
    | none => none
    | some m1 => processLines emails rest m1

/-- `ss.Split(string(data), "\n")` over the bytes read from the access log
(`os.ReadFile` yields a nil slice, hence empty data, on error). -/
def linesOf (env : LogEnv) : List (List Char) :=
  let data : String :=
    match env.readData with
    | none => ""
    | some s => s
  splitGo ('\n' :: []) data.data

/-- The persistence loop of `processLogFile`: one `GetInboundClientIps` per
aggregated identity, keeping the non-nil rows. -/
def persistLoop (st : St) :
    List (String × List String) → St × List InboundClientIps
  | [] => (st, [])
  | (clientEmail, ips) :: rest =>
    let pr := GetInboundClientIps st clientEmail ips
    let pr2 := persistLoop pr.1 rest
    (pr2.1,
      match pr.2 with
      | some r => r :: pr2.2
      | none => pr2.2)

/-- `processLogFile`: return immediately when the access-log path is unset;
otherwise read (possibly failing onto empty data) and truncate the log,
aggregate the observations, delete the whole snapshot table
(`ClearInboudClientIps`, modelled error-free: on a delete error the Go code
returns early keeping the old rows), rebuild the rows and save them
(`AddInboundsClientIps`).  The result is `none` when the line loop would
panic on the email split. -/
def processLogFile (env : LogEnv) (emails : List String) (st : St) : Option St :=
  if env.accessLogPath = "" then some st
  else
    match processLines emails (linesOf env) [] with
    | none => none
    | some m =>
      let stCleared : St := { st with clientIps := [] }
      let pr := persistLoop stCleared m
      some { pr.1 with clientIps := pr.2 }

/-! ## Pre-harvest evaluation (`activateInboundsAfterPenalty`) -/

/-- The first loop of `activateInboundsAfterPenalty` over the fetched
inbounds: increment the penalty of each one below the threshold, activate
the rest; the boolean list records the `activated[i]` map. -/
def activateLoop (penalty : Int) (st : St) : List Inbound → St × List Bool
  | [] => (st, [])
  | e :: rest =>
    if e.penalty < penalty then
      let st1 := updateInboudPenaltyBy1 st e.id e.penalty
      let p := activateLoop penalty st1 rest
      (p.1, false :: p.2)
    else
      let st1 := activateInboundAfterFullPenalty st e.id
      let p := activateLoop penalty st1 rest
      (p.1, true :: p.2)

/-- The second loop of `activateInboundsAfterPenalty`: for each fetched
inbound that was not activated, unmarshal its settings and collect the
first client's email (nothing is collected when the clients list is
empty). -/
def outputEmails : List Inbound → List Bool → List String
  | [], _ => []
  | _ :: _, [] => []
  | e :: rest, act :: acts =>
    if act then outputEmails rest acts
    else
      match unmarshalClients e.settings with
      | [] => outputEmails rest acts
      | email :: _ => email :: outputEmails rest acts

/-- `activateInboundsAfterPenalty`: fetch the disabled non-exempt inbounds,
run the penalty/activation loop, and return the emails of the accounts that
remain inactive. -/
def activateInboundsAfterPenalty (penalty : Int) (st : St) : St × List String :=
  let inbounds := GetInactivePenaltyInbounds st
  let p := activateLoop penalty st inbounds
  (p.1, outputEmails inbounds p.2)

/-! ## The job -/

/-- `NewCheckClientIpJob` stores `penalty * 2` in the job. -/
def NewCheckClientIpJobPenalty (penalty : Int) : Int := penalty * 2

/-- `CheckClientIpJob.Run` with the job's stored penalty value. -/
def RunJob (penalty : Int) (env : LogEnv) (st : St) : Option St :=
  let p := activateInboundsAfterPenalty penalty st
  processLogFile env p.2 p.1

/-- One run of the job constructed by `NewCheckClientIpJob ctorPenalty`. -/
def runCheckClientIpJob (ctorPenalty : Int) (env : LogEnv) (st : St) : Option St :=
  RunJob (NewCheckClientIpJobPenalty ctorPenalty) env st

/-- `n` successive runs of the job (the external scheduler's repetition). -/
def iterRun (ctorPenalty : Int) (env : LogEnv) : Nat → St → Option St
  | 0, st => some st
  | n + 1, st =>
    match runCheckClientIpJob ctorPenalty env st with
    | none => none
    | some st1 => iterRun ctorPenalty env n st1

/-! ## Infrastructure for the invariant proofs -/

/-- The ids column of a list of inbound rows. -/
def idsOf (l : List Inbound) : List Int := l.map (fun i => i.id)

/-- The rows of `l` carrying id `n`. -/
def rowsWithId (l : List Inbound) (n : Int) : List Inbound :=
  l.filter (fun i => i.id = n)

lemma mem_rowsWithId {l : List Inbound} {n : Int} {j : Inbound} :
    j ∈ rowsWithId l n ↔ j ∈ l ∧ j.id = n := by
  simp [rowsWithId, List.mem_filter]

lemma idsOf_map (f : Inbound → Inbound) (hf : ∀ i, (f i).id = i.id) (l : List Inbound) :
    idsOf (l.map f) = idsOf l := by
  induction l with
  | nil => rfl
  | cons a l ih => simp only [idsOf, List.map_cons] at *; rw [hf a, ih]

lemma rowsWithId_map (f : Inbound → Inbound) (hf : ∀ i, (f i).id = i.id)
    (l : List Inbound) (n : Int) :
    rowsWithId (l.map f) n = (rowsWithId l n).map f := by
  induction l with
  | nil => rfl
  | cons a l ih =>
    simp only [rowsWithId, List.map_cons, List.filter_cons] at *
    rw [hf a]
    by_cases h : a.id = n
    · simp [h, ih]
    · simp [h, ih]

lemma rowsWithId_map_frame (f : Inbound → Inbound) (hf : ∀ i, (f i).id = i.id)
    (l : List Inbound) (n : Int) (hfix : ∀ i ∈ l, i.id = n → f i = i) :
    rowsWithId (l.map f) n = rowsWithId l n := by
  induction l with
  | nil => rfl
  | cons a l ih =>
    simp only [rowsWithId, List.map_cons, List.filter_cons] at *
    rw [hf a]
    by_cases h : a.id = n
    · simp [h, hfix a (List.mem_cons_self a l) h,
        ih (fun i hi hn => hfix i (List.mem_cons_of_mem a hi) hn)]
    · simp [h, ih (fun i hi hn => hfix i (List.mem_cons_of_mem a hi) hn)]

lemma rowsWithId_eq_nil {l : List Inbound} {n : Int} (h : n ∉ idsOf l) :
    rowsWithId l n = [] := by
  rw [rowsWithId, List.filter_eq_nil_iff]
  intro a ha hcontra
  exact h (by simpa [idsOf, List.mem_map] using ⟨a, ha, by simpa using hcontra⟩)

lemma rowsWithId_eq_single {l : List Inbound} {ib : Inbound}
    (hnd : (idsOf l).Nodup) (hmem : ib ∈ l) : rowsWithId l ib.id = [ib] := by
  induction l with
  | nil => cases hmem
  | cons a l ih =>
    have hnd' : (idsOf l).Nodup := (List.nodup_cons.mp (by simpa [idsOf] using hnd)).2
    have hhead : a.id ∉ idsOf l := (List.nodup_cons.mp (by simpa [idsOf] using hnd)).1
    rcases List.mem_cons.mp hmem with h | h
    · subst h
      have hnil : rowsWithId l ib.id = [] := rowsWithId_eq_nil hhead
      simp only [rowsWithId, List.filter_cons] at hnil ⊢
      simp [hnil]
    · have hne : a.id ≠ ib.id := by
        intro hcontra
        exact hhead (hcontra ▸ (by simpa [idsOf, List.mem_map] using ⟨ib, h, rfl⟩))
      simp only [rowsWithId, List.filter_cons, decide_eq_true_eq, hne, if_false] at *
      exact ih hnd' h

lemma eq_of_mem_same_id {l : List Inbound} {a b : Inbound}
    (hnd : (idsOf l).Nodup) (ha : a ∈ l) (hb : b ∈ l) (h : a.id = b.id) : a = b :=
  List.inj_on_of_nodup_map (by simpa [idsOf] using hnd) ha hb h

/-! ### Effect of the individual database writes -/

lemma update1_ids (st : St) (id p : Int) :
    idsOf (updateInboudPenaltyBy1 st id p).inbounds = idsOf st.inbounds := by
  unfold updateInboudPenaltyBy1
  apply idsOf_map
  intro i
  by_cases h : i.id = id ∧ i.enable = false <;> simp [h]

lemma update1_clientIps (st : St) (id p : Int) :
    (updateInboudPenaltyBy1 st id p).clientIps = st.clientIps := rfl

lemma update1_restarts (st : St) (id p : Int) :
    (updateInboudPenaltyBy1 st id p).restarts = st.restarts := rfl

lemma update1_rows_other (st : St) (id p n : Int) (h : n ≠ id) :
    rowsWithId (updateInboudPenaltyBy1 st id p).inbounds n = rowsWithId st.inbounds n := by
  unfold updateInboudPenaltyBy1
  apply rowsWithId_map_frame
  · intro i
    by_cases hc : i.id = id ∧ i.enable = false <;> simp [hc]
  · intro i _ hn
    have : ¬(i.id = id ∧ i.enable = false) := fun hc => h (hn ▸ hc.1)
    simp [this]

lemma activate_of_found {st : St} {id : Int}
    (h : ∃ j ∈ st.inbounds, j.id = id ∧ j.enable = false) :
    activateInboundAfterFullPenalty st id =
      { st with
        inbounds := st.inbounds.map (fun i =>
          if i.id = id then { i with enable := true, penalty := -1 } else i),
        restarts := st.restarts + 1 } := by
  obtain ⟨j, hj, hid, hen⟩ := h
  have hs : (st.inbounds.find? (fun i => i.id = id ∧ i.enable = false)).isSome :=
    List.find?_isSome.mpr ⟨j, hj, by simp [hid, hen]⟩
  unfold activateInboundAfterFullPenalty
  cases hfind : st.inbounds.find? (fun i => i.id = id ∧ i.enable = false) with
  | none => rw [hfind] at hs; cases hs
  | some j0 => rfl

lemma activate_ids (st : St) (id : Int) :
    idsOf (activateInboundAfterFullPenalty st id).inbounds = idsOf st.inbounds := by
  unfold activateInboundAfterFullPenalty
  cases st.inbounds.find? (fun i => i.id = id ∧ i.enable = false) with
  | none => rfl
  | some j0 =>
    apply idsOf_map
    intro i
    by_cases h : i.id = id <;> simp [h]

lemma activate_clientIps (st : St) (id : Int) :
    (activateInboundAfterFullPenalty st id).clientIps = st.clientIps := by
  unfold activateInboundAfterFullPenalty
  cases st.inbounds.find? (fun i => i.id = id ∧ i.enable = false) with
  | none => rfl
  | some j0 => rfl

lemma activate_restarts_ge (st : St) (id : Int) :
    st.restarts ≤ (activateInboundAfterFullPenalty st id).restarts := by
  unfold activateInboundAfterFullPenalty
  cases st.inbounds.find? (fun i => i.id = id ∧ i.enable = false) with
  | none => exact le_refl _
  | some j0 => exact Nat.le_succ _

lemma activate_rows_other (st : St) (id n : Int) (h : n ≠ id) :
    rowsWithId (activateInboundAfterFullPenalty st id).inbounds n = rowsWithId st.inbounds n := by
  unfold activateInboundAfterFullPenalty
  cases st.inbounds.find? (fun i => i.id = id ∧ i.enable = false) with
  | none => rfl
  | some j0 =>
    apply rowsWithId_map_frame
    · intro i
      by_cases hc : i.id = id <;> simp [hc]
    · intro i _ hn
      have : ¬(i.id = id) := fun hc => h (hn ▸ hc)
      simp [this]

lemma disable_of_found {st : St} {id : Int}
    (h : ∃ j ∈ st.inbounds, j.id = id ∧ j.enable = true) :
    DisableInbound st id =
      { st with
        inbounds := st.inbounds.map (fun i =>
          if i.id = id then { i with enable := false, penalty := 0 } else i),
        restarts := st.restarts + 1 } := by
  obtain ⟨j, hj, hid, hen⟩ := h
  have hs : (st.inbounds.find? (fun i => i.id = id ∧ i.enable = true)).isSome :=
    List.find?_isSome.mpr ⟨j, hj, by simp [hid, hen]⟩
  unfold DisableInbound
  cases hfind : st.inbounds.find? (fun i => i.id = id ∧ i.enable = true) with
  | none => rw [hfind] at hs; cases hs
  | some j0 => rfl

lemma disable_ids (st : St) (id : Int) :
    idsOf (DisableInbound st id).inbounds = idsOf st.inbounds := by
  unfold DisableInbound
  cases st.inbounds.find? (fun i => i.id = id ∧ i.enable = true) with
  | none => rfl
  | some j0 =>
    apply idsOf_map
    intro i
    by_cases h : i.id = id <;> simp [h]

lemma disable_clientIps (st : St) (id : Int) :
    (DisableInbound st id).clientIps = st.clientIps := by
  unfold DisableInbound
  cases st.inbounds.find? (fun i => i.id = id ∧ i.enable = true) with
  | none => rfl
  | some j0 => rfl

lemma disable_restarts_ge (st : St) (id : Int) :
    st.restarts ≤ (DisableInbound st id).restarts := by
  unfold DisableInbound
  cases st.inbounds.find? (fun i => i.id = id ∧ i.enable = true) with
  | none => exact le_refl _
  | some j0 => exact Nat.le_succ _

lemma disable_rows_other (st : St) (id n : Int) (h : n ≠ id) :
    rowsWithId (DisableInbound st id).inbounds n = rowsWithId st.inbounds n := by
  unfold DisableInbound
  cases st.inbounds.find? (fun i => i.id = id ∧ i.enable = true) with
  | none => rfl
  | some j0 =>
    apply rowsWithId_map_frame
    · intro i
      by_cases hc : i.id = id <;> simp [hc]
    · intro i _ hn
      have : ¬(i.id = id) := fun hc => h (hn ▸ hc)
      simp [this]

/-! ### Effect of the pre-harvest loop -/

lemma activateLoop_ids (thr : Int) :
    ∀ (elems : List Inbound) (st : St),
    idsOf ((activateLoop thr st elems).1).inbounds = idsOf st.inbounds := by
  intro elems
  induction elems with
  | nil => intro st; rfl
  | cons e rest ih =>
    intro st
    unfold activateLoop
    by_cases h : e.penalty < thr
    · simp only [h, if_true]
      rw [ih, update1_ids]
    · simp only [h, if_false]
      rw [ih, activate_ids]

lemma activateLoop_clientIps (thr : Int) :
    ∀ (elems : List Inbound) (st : St),
    ((activateLoop thr st elems).1).clientIps = st.clientIps := by
  intro elems
  induction elems with
  | nil => intro st; rfl
  | cons e rest ih =>
    intro st
    unfold activateLoop
    by_cases h : e.penalty < thr
    · simp only [h, if_true]
      rw [ih, update1_clientIps]
    · simp only [h, if_false]
      rw [ih, activate_clientIps]

lemma activateLoop_restarts_ge (thr : Int) :
    ∀ (elems : List Inbound) (st : St),
    st.restarts ≤ ((activateLoop thr st elems).1).restarts := by
  intro elems
  induction elems with
  | nil => intro st; exact le_refl _
  | cons e rest ih =>
    intro st
    unfold activateLoop
    by_cases h : e.penalty < thr
    · simp only [h, if_true]
      exact le_trans (le_of_eq (update1_restarts st e.id e.penalty).symm) (ih _)
    · simp only [h, if_false]
      exact le_trans (activate_restarts_ge st e.id) (ih _)

lemma activateLoop_rows_other (thr : Int) (n : Int) :
    ∀ (elems : List Inbound) (st : St), (∀ e ∈ elems, e.id ≠ n) →
    rowsWithId ((activateLoop thr st elems).1).inbounds n = rowsWithId st.inbounds n := by
  intro elems
  induction elems with
  | nil => intro st _; rfl
  | cons e rest ih =>
    intro st hne
    have hid : n ≠ e.id := fun h => hne e (List.mem_cons_self e rest) h.symm
    unfold activateLoop
    by_cases h : e.penalty < thr
    · simp only [h, if_true]
      rw [ih _ (fun x hx => hne x (List.mem_cons_of_mem e hx)), update1_rows_other _ _ _ _ hid]
    · simp only [h, if_false]
      rw [ih _ (fun x hx => hne x (List.mem_cons_of_mem e hx)), activate_rows_other _ _ _ hid]

lemma activateLoop_acts (thr : Int) :
    ∀ (elems : List Inbound) (st : St),
    (activateLoop thr st elems).2 = elems.map (fun e => !decide (e.penalty < thr)) := by
  intro elems
  induction elems with
  | nil => intro st; rfl
  | cons e rest ih =>
    intro st
    unfold activateLoop
    by_cases h : e.penalty < thr
    · simp only [h, if_true, List.map_cons, decide_eq_true_eq]
      simp [h, ih]
    · simp only [h, if_false, List.map_cons, decide_eq_true_eq]
      simp [h, ih]

lemma activateLoop_cons_low {thr : Int} {e : Inbound} (st : St) (rest : List Inbound)
    (h : e.penalty < thr) :
    activateLoop thr st (e :: rest) =
      ((activateLoop thr (updateInboudPenaltyBy1 st e.id e.penalty) rest).1,
        false :: (activateLoop thr (updateInboudPenaltyBy1 st e.id e.penalty) rest).2) := by
  rw [show activateLoop thr st (e :: rest) =
    if e.penalty < thr then
      ((activateLoop thr (updateInboudPenaltyBy1 st e.id e.penalty) rest).1,
        false :: (activateLoop thr (updateInboudPenaltyBy1 st e.id e.penalty) rest).2)
    else
      ((activateLoop thr (activateInboundAfterFullPenalty st e.id) rest).1,
        true :: (activateLoop thr (activateInboundAfterFullPenalty st e.id) rest).2) from rfl]
  simp only [h, if_true]

lemma activateLoop_cons_high {thr : Int} {e : Inbound} (st : St) (rest : List Inbound)
    (h : ¬e.penalty < thr) :
    activateLoop thr st (e :: rest) =
      ((activateLoop thr (activateInboundAfterFullPenalty st e.id) rest).1,
        true :: (activateLoop thr (activateInboundAfterFullPenalty st e.id) rest).2) := by
  rw [show activateLoop thr st (e :: rest) =
    if e.penalty < thr then
      ((activateLoop thr (updateInboudPenaltyBy1 st e.id e.penalty) rest).1,
        false :: (activateLoop thr (updateInboudPenaltyBy1 st e.id e.penalty) rest).2)
    else
      ((activateLoop thr (activateInboundAfterFullPenalty st e.id) rest).1,
        true :: (activateLoop thr (activateInboundAfterFullPenalty st e.id) rest).2) from rfl]
  simp only [h, if_false]

lemma activateLoop_append (thr : Int) :
    ∀ (as bs : List Inbound) (st : St),
    activateLoop thr st (as ++ bs) =
      ((activateLoop thr ((activateLoop thr st as).1) bs).1,
        (activateLoop thr st as).2 ++ (activateLoop thr ((activateLoop thr st as).1) bs).2) := by
  intro as
  induction as with
  | nil => intro bs st; rfl
  | cons e rest ih =>
    intro bs st
    by_cases h : e.penalty < thr
    · show activateLoop thr st (e :: (rest ++ bs)) = _
      rw [activateLoop_cons_low _ _ h, activateLoop_cons_low _ _ h, ih]
      simp
    · show activateLoop thr st (e :: (rest ++ bs)) = _
      rw [activateLoop_cons_high _ _ h, activateLoop_cons_high _ _ h, ih]
      simp


/-! ### Effect of the persistence loop -/

/-- The settings document the persistence phase resolves an identity's
limit from: the first matching inbound's settings, or the zero-value
record's empty settings when no inbound matches. -/
def matchedSettings : List Inbound → String → String
  | [], _ => zeroInbound.settings
  | i :: rest, e =>
    if likeContains i.settings e then i.settings else matchedSettings rest e

/-- The limit-resolution outcome an identity sees: the limit extraction run
on its matched settings document (for an identity matching no inbound the
zero value's empty settings yield the default token `0`, hence limit 0).
The harvest phase never changes a settings document, so this is stable
across a run. -/
def emailLimitStatus (l : List Inbound) (e : String) : Option Int :=
  resolveLimitIp (matchedSettings l e)

lemma matchedSettings_find (l : List Inbound) (e : String) :
    matchedSettings l e =
      match l.find? (fun i => likeContains i.settings e) with
      | none => zeroInbound.settings
      | some ib => ib.settings := by
  induction l with
  | nil => rfl
  | cons a l ih =>
    by_cases h : likeContains a.settings e
    · rw [List.find?_cons_of_pos _ (by simpa using h)]
      simp [matchedSettings, h]
    · rw [List.find?_cons_of_neg _ (by simpa using h)]
      simp only [matchedSettings, h, if_false]
      exact ih

lemma emailLimitStatus_eq (st : St) (e : String) :
    emailLimitStatus st.inbounds e =
      resolveLimitIp (match GetInboundByEmail st e with
        | none => zeroInbound.settings
        | some ib => ib.settings) := by
  unfold emailLimitStatus
  rw [matchedSettings_find]
  rfl

lemma matchedSettings_map (f : Inbound → Inbound)
    (hf : ∀ i, (f i).settings = i.settings) (l : List Inbound) (e : String) :
    matchedSettings (l.map f) e = matchedSettings l e := by
  induction l with
  | nil => rfl
  | cons a l ih => simp [matchedSettings, hf a, ih]

lemma emailLimitStatus_map (f : Inbound → Inbound)
    (hf : ∀ i, (f i).settings = i.settings) (l : List Inbound) (e : String) :
    emailLimitStatus (l.map f) e = emailLimitStatus l e := by
  unfold emailLimitStatus
  rw [matchedSettings_map f hf]

/-- Case analysis of one `GetInboundClientIps` call: the returned row is
nil exactly when the identity's limit resolution fails, and the only state
change is a breach disable of a matched, enabled inbound whose resolved
limit is non-zero and below the observed count. -/
lemma getIps_spec (st : St) (e : String) (ips : List String) :
    (emailLimitStatus st.inbounds e = none ∧
      GetInboundClientIps st e ips = (st, none)) ∨
    (∃ l, emailLimitStatus st.inbounds e = some l ∧
      ((∃ m, GetInboundByEmail st e = some m ∧ resolveLimitIp m.settings = some l ∧
          l < (ips.length : Int) ∧ l ≠ 0 ∧ m.enable = true ∧
          GetInboundClientIps st e ips = (DisableInbound st m.id, some ⟨e, ips⟩)) ∨
       GetInboundClientIps st e ips = (st, some ⟨e, ips⟩))) := by
  have hstat := emailLimitStatus_eq st e
  cases hm : GetInboundByEmail st e with
  | none =>
    rw [hm] at hstat
    dsimp only at hstat
    have hz : resolveLimitIp zeroInbound.settings = some 0 := by decide
    rw [hz] at hstat
    have hval : GetInboundClientIps st e ips = (st, some ⟨e, ips⟩) := by
      unfold GetInboundClientIps
      rw [hm]
      dsimp only
      rw [hz]
      dsimp only
      rw [if_neg (by simp)]
    exact Or.inr ⟨0, hstat, Or.inr hval⟩
  | some m =>
    rw [hm] at hstat
    dsimp only at hstat
    cases hr : resolveLimitIp m.settings with
    | none =>
      rw [hr] at hstat
      have hval : GetInboundClientIps st e ips = (st, none) := by
        unfold GetInboundClientIps
        rw [hm]
        dsimp only
        rw [hr]
      exact Or.inl ⟨hstat, hval⟩
    | some l =>
      rw [hr] at hstat
      by_cases hc : l < (ips.length : Int) ∧ l ≠ 0 ∧ m.enable = true
      · have hval : GetInboundClientIps st e ips =
            (DisableInbound st m.id, some ⟨e, ips⟩) := by
          unfold GetInboundClientIps
          rw [hm]
          dsimp only
          rw [hr]
          dsimp only
          rw [if_pos hc]
        exact Or.inr ⟨l, hstat, Or.inl ⟨m, rfl, hr, hc.1, hc.2.1, hc.2.2, hval⟩⟩
      · have hval : GetInboundClientIps st e ips = (st, some ⟨e, ips⟩) := by
          unfold GetInboundClientIps
          rw [hm]
          dsimp only
          rw [hr]
          dsimp only
          rw [if_neg hc]
        exact Or.inr ⟨l, hstat, Or.inr hval⟩

/-- The shape of any single write the harvest phase performs on the inbound
table: identity or a breach disable, never touching id or settings. -/
def HarvestStep (f : Inbound → Inbound) : Prop :=
  ∀ i, (f i).id = i.id ∧ (f i).settings = i.settings ∧
    (f i = i ∨ f i = { i with enable := false, penalty := 0 })

lemma harvestStep_id : HarvestStep id := fun _ => ⟨rfl, rfl, Or.inl rfl⟩

lemma harvestStep_comp {f g : Inbound → Inbound}
    (hf : HarvestStep f) (hg : HarvestStep g) : HarvestStep (g ∘ f) := by
  intro i
  obtain ⟨hfid, hfset, hfd⟩ := hf i
  obtain ⟨hgid, hgset, hgd⟩ := hg (f i)
  refine ⟨by rw [Function.comp_apply, hgid, hfid],
    by rw [Function.comp_apply, hgset, hfset], ?_⟩
  rcases hfd with hfi | hfi
  · rcases hgd with hgi | hgi
    · exact Or.inl (by rw [Function.comp_apply, hgi, hfi])
    · exact Or.inr (by rw [Function.comp_apply, hgi, hfi])
  · rcases hgd with hgi | hgi
    · exact Or.inr (by rw [Function.comp_apply, hgi, hfi])
    · exact Or.inr (by rw [Function.comp_apply, hgi, hfi])

lemma disable_step (st : St) (n : Int) :
    ∃ f, HarvestStep f ∧ (DisableInbound st n).inbounds = st.inbounds.map f := by
  unfold DisableInbound
  cases st.inbounds.find? (fun i => i.id = n ∧ i.enable = true) with
  | none => exact ⟨id, harvestStep_id, by simp⟩
  | some j0 =>
    refine ⟨fun i => if i.id = n then { i with enable := false, penalty := 0 } else i, ?_, rfl⟩
    intro i
    by_cases h : i.id = n <;> simp [h]

/-- One unfolding step of the persistence loop. -/
lemma persistLoop_cons (st : St) (e : String) (ips : List String)
    (rest : List (String × List String)) :
    persistLoop st ((e, ips) :: rest) =
      ((persistLoop (GetInboundClientIps st e ips).1 rest).1,
        match (GetInboundClientIps st e ips).2 with
        | some r => r :: (persistLoop (GetInboundClientIps st e ips).1 rest).2
        | none => (persistLoop (GetInboundClientIps st e ips).1 rest).2) := rfl

/-- Everything the persistence loop does: inbound-table writes are a
composition of breach disables, the snapshot table is untouched (the loop
only builds its row list), restarts only grow, and the built rows are
exactly the aggregated identities whose limit extraction succeeded. -/
lemma persistLoop_spec :
    ∀ (entries : List (String × List String)) (st : St),
    (∃ f, HarvestStep f ∧ (persistLoop st entries).1.inbounds = st.inbounds.map f) ∧
    (persistLoop st entries).1.clientIps = st.clientIps ∧
    st.restarts ≤ (persistLoop st entries).1.restarts ∧
    (persistLoop st entries).2 = entries.filterMap (fun p =>
      match emailLimitStatus st.inbounds p.1 with
      | some _ => some ⟨p.1, p.2⟩
      | none => none) := by
  intro entries
  induction entries with
  | nil =>
    intro st
    exact ⟨⟨id, harvestStep_id, by simp [persistLoop]⟩, rfl, le_refl _, rfl⟩
  | cons p rest ih =>
    intro st
    obtain ⟨e, ips⟩ := p
    rcases getIps_spec st e ips with ⟨hstat, hval⟩ | ⟨l, hstat, hcase⟩
    · rw [persistLoop_cons, hval]
      dsimp only
      obtain ⟨hmap, hcips, hres, hrows⟩ := ih st
      refine ⟨hmap, hcips, hres, ?_⟩
      rw [List.filterMap_cons]
      simp only [hstat]
      exact hrows
    · rcases hcase with ⟨m, hm, hr, hlen, hl0, hmen, hval⟩ | hval
      · rw [persistLoop_cons, hval]
        dsimp only
        obtain ⟨f1, hf1, hinb1⟩ := disable_step st m.id
        obtain ⟨⟨f2, hf2, hinb2⟩, hcips2, hres2, hrows⟩ := ih (DisableInbound st m.id)
        have hfun : (fun p : String × List String =>
              match emailLimitStatus (DisableInbound st m.id).inbounds p.1 with
              | some _ => some (⟨p.1, p.2⟩ : InboundClientIps)
              | none => none) =
            (fun p : String × List String =>
              match emailLimitStatus st.inbounds p.1 with
              | some _ => some ⟨p.1, p.2⟩
              | none => none) := by
          funext q
          rw [hinb1, emailLimitStatus_map f1 (fun i => (hf1 i).2.1)]
        refine ⟨⟨f2 ∘ f1, harvestStep_comp hf1 hf2, by rw [hinb2, hinb1, List.map_map]⟩,
          by rw [hcips2, disable_clientIps],
          le_trans (disable_restarts_ge st m.id) hres2, ?_⟩
        rw [List.filterMap_cons]
        simp only [hstat]
        rw [hrows, hfun]
      · rw [persistLoop_cons, hval]
        dsimp only
        obtain ⟨hmap, hcips, hres, hrows⟩ := ih st
        refine ⟨hmap, hcips, hres, ?_⟩
        rw [List.filterMap_cons]
        simp only [hstat]
        rw [hrows]

/-- An enabled inbound whose settings resolve to limit 0 (or fail to
resolve) survives the persistence loop untouched. -/
lemma persistLoop_keeps_row {ib : Inbound}
    (hlim : resolveLimitIp ib.settings = some 0 ∨ resolveLimitIp ib.settings = none) :
    ∀ (entries : List (String × List String)) (st : St),
    (idsOf st.inbounds).Nodup →
    rowsWithId st.inbounds ib.id = [ib] →
    rowsWithId ((persistLoop st entries).1).inbounds ib.id = [ib] := by
  intro entries
  induction entries with
  | nil =>
    intro st _ hrow
    exact hrow
  | cons p rest ih =>
    intro st hnd hrow
    obtain ⟨e, ips⟩ := p
    rcases getIps_spec st e ips with ⟨_, hval⟩ | ⟨l, _, hcase⟩
    · rw [persistLoop_cons, hval]
      dsimp only
      exact ih st hnd hrow
    · rcases hcase with ⟨m, hm, hr, hlen, hl0, hmen, hval⟩ | hval
      · rw [persistLoop_cons, hval]
        dsimp only
        have hmne : ib.id ≠ m.id := by
          intro hcontra
          have hmem : m ∈ st.inbounds := List.mem_of_find?_eq_some hm
          have hmr : m ∈ rowsWithId st.inbounds ib.id :=
            mem_rowsWithId.mpr ⟨hmem, hcontra.symm⟩
          rw [hrow] at hmr
          have hme : m = ib := by simpa using hmr
          rw [hme] at hr
          rcases hlim with h0 | h0
          · rw [h0] at hr
            exact hl0 (by simpa using hr.symm)
          · rw [h0] at hr
            cases hr
        apply ih
        · rw [disable_ids]
          exact hnd
        · rw [disable_rows_other st m.id ib.id hmne]
          exact hrow
      · rw [persistLoop_cons, hval]
        dsimp only
        exact ih st hnd hrow

lemma update1_inbounds (st : St) (n p : Int) :
    (updateInboudPenaltyBy1 st n p).inbounds =
      st.inbounds.map (fun i =>
        if i.id = n ∧ i.enable = false then { i with penalty := p + 1 } else i) := rfl

/-- What one full pre-harvest loop does to a disabled, non-exempt inbound
that was fetched: below the threshold its counter is incremented by one,
at or above the threshold it is reactivated (`enable = true`,
`penalty = -1`) and a restart is signalled. -/
lemma activateLoop_penalized {thr : Int} {ib : Inbound} (hdis : ib.enable = false) :
    ∀ (elems : List Inbound) (st : St),
    (idsOf elems).Nodup → ib ∈ elems →
    rowsWithId st.inbounds ib.id = [ib] →
    ((ib.penalty < thr →
      rowsWithId ((activateLoop thr st elems).1).inbounds ib.id =
        [{ ib with penalty := ib.penalty + 1 }]) ∧
     (¬ib.penalty < thr →
      rowsWithId ((activateLoop thr st elems).1).inbounds ib.id =
        [{ ib with enable := true, penalty := -1 }] ∧
      st.restarts < ((activateLoop thr st elems).1).restarts)) := by
  intro elems st hnd hmem hrow
  obtain ⟨pre, post, rfl⟩ := List.append_of_mem hmem
  have hids : idsOf (pre ++ ib :: post) = idsOf pre ++ ib.id :: idsOf post := by
    simp [idsOf]
  rw [hids] at hnd
  rw [List.nodup_append] at hnd
  obtain ⟨hndpre, hndmid, hdisj⟩ := hnd
  have hibpost : ib.id ∉ idsOf post := (List.nodup_cons.mp hndmid).1
  have hpre : ∀ e ∈ pre, e.id ≠ ib.id := by
    intro e he hcontra
    exact hdisj (a := ib.id) (hcontra ▸ (by simpa [idsOf] using ⟨e, he, rfl⟩))
      (List.mem_cons_self _ _)
  have hpost : ∀ e ∈ post, e.id ≠ ib.id := by
    intro e he hcontra
    exact hibpost (hcontra ▸ (by simpa [idsOf] using ⟨e, he, rfl⟩))
  rw [activateLoop_append]
  dsimp only
  have hrow_pre :
      rowsWithId ((activateLoop thr st pre).1).inbounds ib.id = [ib] := by
    rw [activateLoop_rows_other thr ib.id pre st hpre]
    exact hrow
  constructor
  · intro hlt
    rw [activateLoop_cons_low _ _ hlt]
    dsimp only
    rw [activateLoop_rows_other thr ib.id post _ hpost]
    rw [update1_inbounds]
    rw [rowsWithId_map _ (fun i => by
      by_cases h : i.id = ib.id ∧ i.enable = false <;> simp [h]) _ _]
    rw [hrow_pre]
    simp [hdis]
  · intro hge
    rw [activateLoop_cons_high _ _ hge]
    dsimp only
    have hibmem : ib ∈ ((activateLoop thr st pre).1).inbounds := by
      have : ib ∈ rowsWithId ((activateLoop thr st pre).1).inbounds ib.id := by
        rw [hrow_pre]; exact List.mem_singleton.mpr rfl
      exact (mem_rowsWithId.mp this).1
    rw [activate_of_found ⟨ib, hibmem, rfl, hdis⟩]
    constructor
    · rw [activateLoop_rows_other thr ib.id post _ hpost]
      dsimp only
      rw [rowsWithId_map _ (fun i => by by_cases h : i.id = ib.id <;> simp [h]) _ _]
      rw [hrow_pre]
      simp
    · have h1 : st.restarts ≤ ((activateLoop thr st pre).1).restarts :=
        activateLoop_restarts_ge thr pre st
      have h2 : ((activateLoop thr st pre).1).restarts <
          ({ (activateLoop thr st pre).1 with
              inbounds := ((activateLoop thr st pre).1).inbounds.map (fun i =>
                if i.id = ib.id then { i with enable := true, penalty := -1 } else i),
              restarts := ((activateLoop thr st pre).1).restarts + 1 } : St).restarts :=
        Nat.lt_succ_self _
      exact lt_of_le_of_lt h1 (lt_of_lt_of_le h2 (activateLoop_restarts_ge thr post _))

/-- Case analysis of one non-panicking `processLogFile` call. -/
lemma processLogFile_cases {env : LogEnv} {emails : List String} {st st' : St}
    (h : processLogFile env emails st = some st') :
    (env.accessLogPath = "" ∧ st' = st) ∨
    (env.accessLogPath ≠ "" ∧
      ∃ m, processLines emails (linesOf env) [] = some m ∧
        st' = { (persistLoop { st with clientIps := [] } m).1 with
                clientIps := (persistLoop { st with clientIps := [] } m).2 }) := by
  unfold processLogFile at h
  by_cases hpath : env.accessLogPath = ""
  · rw [if_pos hpath] at h
    exact Or.inl ⟨hpath, (Option.some.injEq _ _ ▸ h).symm⟩
  · rw [if_neg hpath] at h
    refine Or.inr ⟨hpath, ?_⟩
    cases hm : processLines emails (linesOf env) [] with
    | none => rw [hm] at h; cases h
    | some m =>
      rw [hm] at h
      dsimp only at h
      exact ⟨m, rfl, (Option.some.injEq _ _ ▸ h).symm⟩

/-! ## The claims -/

/-- C1: for an identity whose inbound resolves with a limit greater than 0
and is enabled, an observed distinct-IP count exceeding the limit makes
`GetInboundClientIps` disable the inbound (enable becomes false, penalty
becomes 0) and signal exactly one proxy restart, while still returning the
snapshot row. -/
theorem claim1_breach_disables_and_restarts_once
    (st : St) (ib : Inbound) (email : String) (ips : List String) (l : Int)
    (hfind : GetInboundByEmail st email = some ib)
    (hres : resolveLimitIp ib.settings = some l)
    (hl : 0 < l) (hen : ib.enable = true) (hcount : l < (ips.length : Int)) :
    GetInboundClientIps st email ips =
      (DisableInbound st ib.id, some ⟨email, ips⟩) ∧
    (DisableInbound st ib.id).restarts = st.restarts + 1 ∧
    ∀ j ∈ (DisableInbound st ib.id).inbounds, j.id = ib.id →
      j.enable = false ∧ j.penalty = 0 := by
  have hmem : ib ∈ st.inbounds := List.mem_of_find?_eq_some hfind
  have hdis := disable_of_found (⟨ib, hmem, rfl, hen⟩ :
    ∃ j ∈ st.inbounds, j.id = ib.id ∧ j.enable = true)
  refine ⟨?_, ?_, ?_⟩
  · unfold GetInboundClientIps
    rw [hfind]
    dsimp only
    rw [hres]
    dsimp only
    rw [if_pos ⟨hcount, ne_of_gt hl, hen⟩]
  · rw [hdis]
  · rw [hdis]
    intro j hj hid
    dsimp only at hj
    obtain ⟨j0, hj0, hfj⟩ := List.mem_map.mp hj
    by_cases hc : j0.id = ib.id
    · rw [← hfj, if_pos hc]
      exact ⟨rfl, rfl⟩
    · exfalso
      rw [← hfj, if_neg hc] at hid
      exact hc hid

/-- C4: during the pre-harvest evaluation, every disabled non-exempt
inbound whose penalty counter has reached the grace threshold is set to
`enable = true` with `penalty = -1` and a restart is signalled; the
threshold the job uses is exactly twice the penalty parameter supplied to
`NewCheckClientIpJob`. -/
theorem claim4_reactivation_at_doubled_threshold
    (ctorPenalty : Int) (st : St) (ib : Inbound)
    (hmem : ib ∈ st.inbounds) (hdis : ib.enable = false) (hnonex : ib.penalty > -1)
    (hth : NewCheckClientIpJobPenalty ctorPenalty ≤ ib.penalty)
    (hnd : (idsOf st.inbounds).Nodup) :
    NewCheckClientIpJobPenalty ctorPenalty = ctorPenalty * 2 ∧
    (∀ j ∈ ((activateInboundsAfterPenalty (NewCheckClientIpJobPenalty ctorPenalty) st).1).inbounds,
      j.id = ib.id → j.enable = true ∧ j.penalty = -1) ∧
    st.restarts <
      ((activateInboundsAfterPenalty (NewCheckClientIpJobPenalty ctorPenalty) st).1).restarts := by
  have hfetched : ib ∈ GetInactivePenaltyInbounds st := by
    rw [GetInactivePenaltyInbounds, List.mem_filter]
    exact ⟨hmem, by simp [hdis, hnonex]⟩
  have hndf : (idsOf (GetInactivePenaltyInbounds st)).Nodup := by
    apply List.Nodup.sublist _ hnd
    exact List.Sublist.map _ (List.filter_sublist st.inbounds)
  have hrow : rowsWithId st.inbounds ib.id = [ib] := rowsWithId_eq_single hnd hmem
  have hAL := (activateLoop_penalized hdis (GetInactivePenaltyInbounds st) st hndf
    hfetched hrow).2 (not_lt.mpr hth)
  have hstEq : (activateInboundsAfterPenalty (NewCheckClientIpJobPenalty ctorPenalty) st).1 =
      (activateLoop (NewCheckClientIpJobPenalty ctorPenalty) st (GetInactivePenaltyInbounds st)).1 := rfl
  refine ⟨rfl, ?_, ?_⟩
  · intro j hj hid
    rw [hstEq] at hj
    have : j ∈ rowsWithId
        ((activateLoop (NewCheckClientIpJobPenalty ctorPenalty) st
          (GetInactivePenaltyInbounds st)).1).inbounds ib.id :=
      mem_rowsWithId.mpr ⟨hj, hid⟩
    rw [hAL.1] at this
    have hje : j = { ib with enable := true, penalty := -1 } := by simpa using this
    rw [hje]
    exact ⟨rfl, rfl⟩
  · rw [hstEq]
    exact hAL.2

/-- C8: an inbound with penalty counter -1 is never selected by
`GetInactivePenaltyInbounds` and the pre-harvest evaluation leaves its row
(in particular its enabled flag and its penalty counter) unchanged. -/
theorem claim8_exempt_inbound_untouched
    (thr : Int) (st : St) (ib : Inbound)
    (hmem : ib ∈ st.inbounds) (hexempt : ib.penalty = -1)
    (hnd : (idsOf st.inbounds).Nodup) :
    ib ∉ GetInactivePenaltyInbounds st ∧
    rowsWithId ((activateInboundsAfterPenalty thr st).1).inbounds ib.id =
      rowsWithId st.inbounds ib.id := by
  constructor
  · intro hcontra
    rw [GetInactivePenaltyInbounds, List.mem_filter] at hcontra
    have := hcontra.2
    simp [hexempt] at this
  · have hne : ∀ e ∈ GetInactivePenaltyInbounds st, e.id ≠ ib.id := by
      intro e he hcontra
      rw [GetInactivePenaltyInbounds, List.mem_filter] at he
      have heq : e = ib := eq_of_mem_same_id hnd he.1 hmem hcontra
      have := he.2
      rw [heq] at this
      simp [hexempt] at this
    have hstEq : (activateInboundsAfterPenalty thr st).1 =
        (activateLoop thr st (GetInactivePenaltyInbounds st)).1 := rfl
    rw [hstEq]
    exact activateLoop_rows_other thr ib.id (GetInactivePenaltyInbounds st) st hne

/-- C7: for a Penalized inbound (disabled, counter at least 0), the
pre-harvest evaluation either increments the counter by exactly one
(staying disabled) or reactivates to `(-1, enabled)`; after a complete run
the only possible rows for that id are the incremented one, the reactivated
one, or a fresh breach `(0, disabled)` — no other counter value is ever
written, and while the row stays Penalized with a non-zero counter the
counter has strictly increased. -/
theorem claim7_penalty_counter_writes
    (ctorPenalty : Int) (env : LogEnv) (st st' : St) (ib : Inbound)
    (hmem : ib ∈ st.inbounds) (hdis : ib.enable = false) (hpen : 0 ≤ ib.penalty)
    (hnd : (idsOf st.inbounds).Nodup)
    (hrun : runCheckClientIpJob ctorPenalty env st = some st') :
    (∀ j ∈ ((activateInboundsAfterPenalty (NewCheckClientIpJobPenalty ctorPenalty) st).1).inbounds,
      j.id = ib.id →
      (j.enable = false ∧ j.penalty = ib.penalty + 1) ∨
      (j.enable = true ∧ j.penalty = -1)) ∧
    (∀ j ∈ st'.inbounds, j.id = ib.id →
      ((j.enable = false ∧ j.penalty = ib.penalty + 1) ∨
       (j.enable = true ∧ j.penalty = -1) ∨
       (j.enable = false ∧ j.penalty = 0)) ∧
      (j.enable = false → 0 ≤ j.penalty → j.penalty ≠ 0 → ib.penalty < j.penalty)) := by
  have hfetched : ib ∈ GetInactivePenaltyInbounds st := by
    rw [GetInactivePenaltyInbounds, List.mem_filter]
    refine ⟨hmem, ?_⟩
    have : ib.penalty > -1 := lt_of_lt_of_le (by norm_num) hpen
    simp [hdis, this]
  have hndf : (idsOf (GetInactivePenaltyInbounds st)).Nodup := by
    apply List.Nodup.sublist _ hnd
    exact List.Sublist.map _ (List.filter_sublist st.inbounds)
  have hrow : rowsWithId st.inbounds ib.id = [ib] := rowsWithId_eq_single hnd hmem
  have hAL := @activateLoop_penalized (NewCheckClientIpJobPenalty ctorPenalty) ib hdis
    (GetInactivePenaltyInbounds st) st hndf hfetched hrow
  have hstEq : (activateInboundsAfterPenalty (NewCheckClientIpJobPenalty ctorPenalty) st).1 =
      (activateLoop (NewCheckClientIpJobPenalty ctorPenalty) st (GetInactivePenaltyInbounds st)).1 := rfl
  have hpart1 : ∀ j ∈ ((activateInboundsAfterPenalty (NewCheckClientIpJobPenalty ctorPenalty) st).1).inbounds,
      j.id = ib.id →
      (j.enable = false ∧ j.penalty = ib.penalty + 1) ∨
      (j.enable = true ∧ j.penalty = -1) := by
    intro j hj hid
    rw [hstEq] at hj
    have hjrows : j ∈ rowsWithId
        ((activateLoop (NewCheckClientIpJobPenalty ctorPenalty) st
          (GetInactivePenaltyInbounds st)).1).inbounds ib.id :=
      mem_rowsWithId.mpr ⟨hj, hid⟩
    by_cases hlt : ib.penalty < NewCheckClientIpJobPenalty ctorPenalty
    · rw [hAL.1 hlt] at hjrows
      have hje : j = { ib with penalty := ib.penalty + 1 } := by simpa using hjrows
      rw [hje]
      exact Or.inl ⟨hdis, rfl⟩
    · rw [(hAL.2 hlt).1] at hjrows
      have hje : j = { ib with enable := true, penalty := -1 } := by simpa using hjrows
      rw [hje]
      exact Or.inr ⟨rfl, rfl⟩
  refine ⟨hpart1, ?_⟩
  intro j hj hid
  have hmain : (j.enable = false ∧ j.penalty = ib.penalty + 1) ∨
      (j.enable = true ∧ j.penalty = -1) ∨
      (j.enable = false ∧ j.penalty = 0) := by
    unfold runCheckClientIpJob RunJob at hrun
    dsimp only at hrun
    rcases processLogFile_cases hrun with ⟨_, hst'⟩ | ⟨_, m, _, hst'⟩
    · subst hst'
      rcases hpart1 j hj hid with hc | hc
      · exact Or.inl hc
      · exact Or.inr (Or.inl hc)
    · obtain ⟨⟨f, hf, hinb⟩, _, _, _⟩ := persistLoop_spec m
        { (activateInboundsAfterPenalty (NewCheckClientIpJobPenalty ctorPenalty) st).1 with
          clientIps := [] }
      rw [hst'] at hj
      dsimp only at hj
      rw [hinb] at hj
      dsimp only at hj
      obtain ⟨j0, hj0, hfj⟩ := List.mem_map.mp hj
      obtain ⟨hfid, _, hfd⟩ := hf j0
      have hj0id : j0.id = ib.id := by rw [← hid, ← hfj, hfid]
      rcases hpart1 j0 hj0 hj0id with hc | hc
      · rcases hfd with hfi | hfi
        · rw [← hfj, hfi]
          exact Or.inl hc
        · rw [← hfj, hfi]
          exact Or.inr (Or.inr ⟨rfl, rfl⟩)
      · rcases hfd with hfi | hfi
        · rw [← hfj, hfi]
          exact Or.inr (Or.inl hc)
        · rw [← hfj, hfi]
          exact Or.inr (Or.inr ⟨rfl, rfl⟩)
  refine ⟨hmain, ?_⟩
  intro hjf hjp hjnz
  rcases hmain with hc | hc | hc
  · rw [hc.2]; exact lt_add_one _
  · rw [hc.1] at hjf; cases hjf
  · exact absurd hc.2 hjnz

/-- C2: an enabled inbound whose settings resolve the max-IP limit to 0
(including the absent-field case, which resolves to 0) or fail to resolve
it at all is never disabled by a run of the job: its row survives the whole
run unchanged, whatever the log contains. -/
theorem claim2_zero_limit_never_disabled
    (ctorPenalty : Int) (env : LogEnv) (st st' : St) (ib : Inbound)
    (hmem : ib ∈ st.inbounds) (hen : ib.enable = true)
    (hlim : resolveLimitIp ib.settings = some 0 ∨ resolveLimitIp ib.settings = none)
    (hnd : (idsOf st.inbounds).Nodup)
    (hrun : runCheckClientIpJob ctorPenalty env st = some st') :
    rowsWithId st'.inbounds ib.id = [ib] := by
  have hrow : rowsWithId st.inbounds ib.id = [ib] := rowsWithId_eq_single hnd hmem
  have hne : ∀ e ∈ GetInactivePenaltyInbounds st, e.id ≠ ib.id := by
    intro e he hcontra
    rw [GetInactivePenaltyInbounds, List.mem_filter] at he
    have heq : e = ib := eq_of_mem_same_id hnd he.1 hmem hcontra
    have := he.2
    rw [heq, hen] at this
    simp at this
  have hstEq : (activateInboundsAfterPenalty (NewCheckClientIpJobPenalty ctorPenalty) st).1 =
      (activateLoop (NewCheckClientIpJobPenalty ctorPenalty) st (GetInactivePenaltyInbounds st)).1 := rfl
  have hrow1 : rowsWithId
      ((activateInboundsAfterPenalty (NewCheckClientIpJobPenalty ctorPenalty) st).1).inbounds
      ib.id = [ib] := by
    rw [hstEq, activateLoop_rows_other _ _ _ _ hne]
    exact hrow
  have hnd1 : (idsOf
      ((activateInboundsAfterPenalty (NewCheckClientIpJobPenalty ctorPenalty) st).1).inbounds).Nodup := by
    rw [hstEq, activateLoop_ids]
    exact hnd
  unfold runCheckClientIpJob RunJob at hrun
  dsimp only at hrun
  rcases processLogFile_cases hrun with ⟨_, hst'⟩ | ⟨_, m, _, hst'⟩
  · rw [hst']
    exact hrow1
  · have hkeep := persistLoop_keeps_row hlim m
      { (activateInboundsAfterPenalty (NewCheckClientIpJobPenalty ctorPenalty) st).1 with
        clientIps := [] } hnd1 hrow1
    rw [hst']
    exact hkeep

/-- C3 counterexample: a run that completes its persistence phase while an
observed identity is dropped from the snapshot.  The inbound's settings
carry `"limitIp": 2,` on one line, so the extracted token `2,` fails
`strconv.Atoi` and `GetInboundClientIps` returns nil for the identity
`a@x` even though it was observed; the prior snapshot row `stale` is still
deleted, so the rebuilt collection is empty rather than containing exactly
the observed identities. -/
theorem claim3_counterexample :
    (activateInboundsAfterPenalty (NewCheckClientIpJobPenalty 5)
        ⟨[⟨3, true, 0, "has a@x\n\"limitIp\": 2,\nrest"⟩], [⟨"stale", ["8.8.8.8"]⟩], 0⟩).2 = [] ∧
    processLines [] (linesOf ⟨"access.log", some "x 10.0.0.1 email: a@x"⟩) [] =
      some [("a@x", ["10.0.0.1"])] ∧
    runCheckClientIpJob 5 ⟨"access.log", some "x 10.0.0.1 email: a@x"⟩
        ⟨[⟨3, true, 0, "has a@x\n\"limitIp\": 2,\nrest"⟩], [⟨"stale", ["8.8.8.8"]⟩], 0⟩ =
      some ⟨[⟨3, true, 0, "has a@x\n\"limitIp\": 2,\nrest"⟩], [], 0⟩ := by
  decide

/-- C3 amended: after a completed run whose access-log path is set, the
snapshot collection is rebuilt from scratch and holds exactly the
identities observed in that run whose snapshot-row construction succeeded —
that is, whose limit token, as extracted from the matched inbound's
settings (or from the zero value's empty settings when no inbound matches,
which parses as 0), parses as an integer; every row in the collection comes
from this run's observations (so no prior identity survives), and every
observed identity with a successfully parsed limit is persisted with its
observed IP list. -/
theorem claim3_amended_snapshot_rebuild
    (ctorPenalty : Int) (env : LogEnv) (st st' : St)
    (hpath : env.accessLogPath ≠ "")
    (hrun : runCheckClientIpJob ctorPenalty env st = some st') :
    ∃ m, processLines
        ((activateInboundsAfterPenalty (NewCheckClientIpJobPenalty ctorPenalty) st).2)
        (linesOf env) [] = some m ∧
      st'.clientIps = m.filterMap (fun p =>
        match emailLimitStatus
            ((activateInboundsAfterPenalty (NewCheckClientIpJobPenalty ctorPenalty) st).1).inbounds
            p.1 with
        | some _ => some ⟨p.1, p.2⟩
        | none => none) ∧
      (∀ row ∈ st'.clientIps, (row.clientEmail, row.ips) ∈ m) ∧
      (∀ p ∈ m, (∃ l, emailLimitStatus
          ((activateInboundsAfterPenalty (NewCheckClientIpJobPenalty ctorPenalty) st).1).inbounds
            p.1 = some l) →
        (⟨p.1, p.2⟩ : InboundClientIps) ∈ st'.clientIps) := by
  unfold runCheckClientIpJob RunJob at hrun
  dsimp only at hrun
  rcases processLogFile_cases hrun with ⟨hc, _⟩ | ⟨_, m, hm, hst'⟩
  · exact absurd hc hpath
  · obtain ⟨_, _, _, hrows⟩ := persistLoop_spec m
      { (activateInboundsAfterPenalty (NewCheckClientIpJobPenalty ctorPenalty) st).1 with
        clientIps := [] }
    refine ⟨m, hm, ?_, ?_, ?_⟩
    · rw [hst']
      dsimp only
      exact hrows
    · intro row hrow
      rw [hst'] at hrow
      dsimp only at hrow
      rw [hrows] at hrow
      obtain ⟨p, hpm, hfp⟩ := List.mem_filterMap.mp hrow
      cases hstat : emailLimitStatus
          ((activateInboundsAfterPenalty (NewCheckClientIpJobPenalty ctorPenalty) st).1).inbounds
          p.1 with
      | none => rw [hstat] at hfp; cases hfp
      | some l =>
        rw [hstat] at hfp
        dsimp only at hfp
        have hrowe : row = ⟨p.1, p.2⟩ := (Option.some.injEq _ _ ▸ hfp).symm
        rw [hrowe]
        exact hpm
    · intro p hpm hstat
      obtain ⟨l, hl⟩ := hstat
      rw [hst']
      dsimp only
      rw [hrows]
      apply List.mem_filterMap.mpr
      refine ⟨p, hpm, ?_⟩
      rw [hl]

/-- No entry of the aggregation map carries the loopback or the
liveness-probe address. -/
def noProbeIps (m : List (String × List String)) : Prop :=
  ∀ p ∈ m, "127.0.0.1" ∉ p.2 ∧ "1.1.1.1" ∉ p.2

lemma addIp_noProbe {ip : String} (hip1 : ip ≠ "127.0.0.1") (hip2 : ip ≠ "1.1.1.1") :
    ∀ (m : List (String × List String)) (e : String),
    noProbeIps m → noProbeIps (addIp m e ip) := by
  intro m
  induction m with
  | nil =>
    intro e _ p hp
    have hpe : p = (e, [ip]) := by simpa [addIp] using hp
    rw [hpe]
    constructor
    · intro hmem
      rcases List.mem_singleton.mp hmem with h
      exact hip1 h.symm
    · intro hmem
      rcases List.mem_singleton.mp hmem with h
      exact hip2 h.symm
  | cons q rest ih =>
    intro e hm p hp
    obtain ⟨qe, qips⟩ := q
    by_cases hqe : qe = e
    · rw [addIp, if_pos hqe] at hp
      rcases List.mem_cons.mp hp with hpe | hpe
      · rw [hpe]
        have hq := hm (qe, qips) (List.mem_cons_self _ _)
        constructor
        · intro hmem
          rcases List.mem_append.mp hmem with hmem | hmem
          · exact hq.1 hmem
          · exact hip1 (List.mem_singleton.mp hmem).symm
        · intro hmem
          rcases List.mem_append.mp hmem with hmem | hmem
          · exact hq.2 hmem
          · exact hip2 (List.mem_singleton.mp hmem).symm
      · exact hm p (List.mem_cons_of_mem _ hpe)
    · rw [addIp, if_neg hqe] at hp
      rcases List.mem_cons.mp hp with hpe | hpe
      · rw [hpe]
        exact hm (qe, qips) (List.mem_cons_self _ _)
      · exact ih e (fun r hr => hm r (List.mem_cons_of_mem _ hr)) p hpe

lemma processLine_noProbe {emails : List String} {m m1 : List (String × List String)}
    {line : List Char} (h : processLine emails m line = some m1)
    (hm : noProbeIps m) : noProbeIps m1 := by
  unfold processLine at h
  cases hip : findIPv4 line with
  | none =>
    rw [hip] at h
    have : m = m1 := Option.some.injEq _ _ ▸ h
    rw [← this]; exact hm
  | some ipMatch =>
    rw [hip] at h
    dsimp only at h
    by_cases hexcl : String.mk ipMatch = "127.0.0.1" ∨ String.mk ipMatch = "1.1.1.1"
    · rw [if_pos hexcl] at h
      have : m = m1 := Option.some.injEq _ _ ▸ h
      rw [← this]; exact hm
    · rw [if_neg hexcl] at h
      have hip1 : String.mk ipMatch ≠ "127.0.0.1" := fun hc => hexcl (Or.inl hc)
      have hip2 : String.mk ipMatch ≠ "1.1.1.1" := fun hc => hexcl (Or.inr hc)
      cases hem : findEmailMatch line with
      | none =>
        rw [hem] at h
        have : m = m1 := Option.some.injEq _ _ ▸ h
        rw [← this]; exact hm
      | some emailMatch =>
        rw [hem] at h
        dsimp only at h
        cases ht : (splitGo emailSep emailMatch).get? 1 with
        | none => rw [ht] at h; cases h
        | some t =>
          rw [ht] at h
          dsimp only at h
          by_cases hinc : String.mk (trimGo t) ∈ emails
          · rw [if_pos hinc] at h
            have : m = m1 := Option.some.injEq _ _ ▸ h
            rw [← this]; exact hm
          · rw [if_neg hinc] at h
            cases hl : lookupIps m (String.mk (trimGo t)) with
            | some ips =>
              rw [hl] at h
              dsimp only at h
              by_cases hdup : String.mk ipMatch ∈ ips
              · rw [if_pos hdup] at h
                have : m = m1 := Option.some.injEq _ _ ▸ h
                rw [← this]; exact hm
              · rw [if_neg hdup] at h
                have : addIp m (String.mk (trimGo t)) (String.mk ipMatch) = m1 :=
                  Option.some.injEq _ _ ▸ h
                rw [← this]
                exact addIp_noProbe hip1 hip2 m _ hm
            | none =>
              rw [hl] at h
              have : addIp m (String.mk (trimGo t)) (String.mk ipMatch) = m1 :=
                Option.some.injEq _ _ ▸ h
              rw [← this]
              exact addIp_noProbe hip1 hip2 m _ hm

lemma processLines_noProbe {emails : List String} :
    ∀ (lines : List (List Char)) (m0 m : List (String × List String)),
    noProbeIps m0 → processLines emails lines m0 = some m → noProbeIps m := by
  intro lines
  induction lines with
  | nil =>
    intro m0 m hm0 h
    simp only [processLines, Option.some.injEq] at h
    rw [← h]; exact hm0
  | cons line rest ih =>
    intro m0 m hm0 h
    simp only [processLines] at h
    cases hl : processLine emails m0 line with
    | none => rw [hl] at h; cases h
    | some m1 =>
      rw [hl] at h
      exact ih m1 m (processLine_noProbe hl hm0) h

/-- C9: the loopback address `127.0.0.1` and the probe address `1.1.1.1`
never contribute to any identity's distinct-IP set: whatever the log
content and the exclusion list, no entry of the aggregation map built by
the harvest loop contains either address. -/
theorem claim9_probe_addresses_never_counted
    (emails : List String) (lines : List (List Char)) (m : List (String × List String))
    (h : processLines emails lines [] = some m) :
    ∀ p ∈ m, "127.0.0.1" ∉ p.2 ∧ "1.1.1.1" ∉ p.2 :=
  processLines_noProbe lines [] m (fun p hp => absurd hp (List.not_mem_nil p)) h

lemma outputEmails_map_spec (thr : Int) :
    ∀ (elems : List Inbound),
    outputEmails elems (elems.map (fun e => !decide (e.penalty < thr))) =
      elems.filterMap (fun e =>
        if e.penalty < thr then (unmarshalClients e.settings).head? else none) := by
  intro elems
  induction elems with
  | nil => rfl
  | cons e rest ih =>
    simp only [List.map_cons, List.filterMap_cons]
    by_cases h : e.penalty < thr
    · simp only [h, decide_True, Bool.not_true, outputEmails, if_pos h]
      cases hc : unmarshalClients e.settings with
      | nil => simp [hc, ih]
      | cons a rest2 => simp [hc, ih]
    · simp only [h, decide_False, Bool.not_false, outputEmails, if_neg h]
      simpa using ih

lemma lookup_addIp_self :
    ∀ (m : List (String × List String)) (e ip : String),
    ∃ ips, lookupIps (addIp m e ip) e = some ips ∧ ip ∈ ips := by
  intro m
  induction m with
  | nil =>
    intro e ip
    exact ⟨[ip], by simp [addIp, lookupIps], by simp⟩
  | cons q rest ih =>
    intro e ip
    obtain ⟨qe, qips⟩ := q
    by_cases h : qe = e
    · refine ⟨qips ++ [ip], ?_, by simp⟩
      rw [addIp, if_pos h, lookupIps, if_pos h]
    · obtain ⟨ips, hl, hmem⟩ := ih e ip
      refine ⟨ips, ?_, hmem⟩
      rw [addIp, if_neg h, lookupIps, if_neg h]
      exact hl

/-- C10 counterexample: inbound 1 stays mid-penalty and lists clients
`x, y`; inbound 2 also stays mid-penalty and lists `y` as its first
client.  The exclusion set is then `x, y`, so an observation for `y` — a
non-first client of inbound 1 — is dropped from aggregation, refuting the
claim that observations for the other clients of a mid-penalty inbound are
still aggregated. -/
theorem claim10_counterexample :
    (activateInboundsAfterPenalty 10
        ⟨[⟨1, false, 0, "\x7b\"clients\": [\x7b\"email\": \"x\"\x7d, \x7b\"email\": \"y\"\x7d]\x7d"⟩,
          ⟨2, false, 0, "\x7b\"clients\": [\x7b\"email\": \"y\"\x7d]\x7d"⟩], [], 0⟩).2 = ["x", "y"] ∧
    unmarshalClients "\x7b\"clients\": [\x7b\"email\": \"x\"\x7d, \x7b\"email\": \"y\"\x7d]\x7d" =
      ["x", "y"] ∧
    processLine ["x", "y"] [] ("z 10.0.0.5 email: y").data = some [] := by
  decide

/-- C10 amended: the pre-harvest evaluation excludes exactly the first
client email of each inbound that remains mid-penalty (nothing is excluded
for an inbound whose settings fail to unmarshal or list no clients), and
the harvest loop aggregates an observation if and only if its trimmed email
is not in that exclusion set — so an observation for a non-first client of
a mid-penalty inbound is still aggregated unless that same email is the
first client of some other mid-penalty inbound. -/
theorem claim10_amended_first_client_exclusion (thr : Int) (st : St) :
    (∀ email, email ∈ (activateInboundsAfterPenalty thr st).2 ↔
      ∃ e, e ∈ GetInactivePenaltyInbounds st ∧ e.penalty < thr ∧
        (unmarshalClients e.settings).head? = some email) ∧
    (∀ (emails : List String) (m : List (String × List String)) (line : List Char)
      (ipMatch emailMatch t : List Char),
      findIPv4 line = some ipMatch →
      ¬(String.mk ipMatch = "127.0.0.1" ∨ String.mk ipMatch = "1.1.1.1") →
      findEmailMatch line = some emailMatch →
      (splitGo emailSep emailMatch).get? 1 = some t →
      ((String.mk (trimGo t) ∉ emails →
        ∃ m1, processLine emails m line = some m1 ∧
          ∃ ips, lookupIps m1 (String.mk (trimGo t)) = some ips ∧ String.mk ipMatch ∈ ips) ∧
       (String.mk (trimGo t) ∈ emails → processLine emails m line = some m))) := by
  constructor
  · intro email
    rw [show (activateInboundsAfterPenalty thr st).2 =
      outputEmails (GetInactivePenaltyInbounds st)
        ((activateLoop thr st (GetInactivePenaltyInbounds st)).2) from rfl]
    rw [activateLoop_acts, outputEmails_map_spec]
    constructor
    · intro hmem
      obtain ⟨e, he, hfe⟩ := List.mem_filterMap.mp hmem
      by_cases h : e.penalty < thr
      · rw [if_pos h] at hfe
        exact ⟨e, he, h, hfe⟩
      · rw [if_neg h] at hfe
        cases hfe
    · rintro ⟨e, he, hlt, hhead⟩
      exact List.mem_filterMap.mpr ⟨e, he, by rw [if_pos hlt]; exact hhead⟩
  · intro emails m line ipMatch emailMatch t hip hexcl hem ht
    constructor
    · intro hnot
      unfold processLine
      rw [hip]
      dsimp only
      rw [if_neg hexcl, hem]
      dsimp only
      rw [ht]
      dsimp only
      rw [if_neg hnot]
      cases hl : lookupIps m (String.mk (trimGo t)) with
      | some ips =>
        dsimp only
        by_cases hdup : String.mk ipMatch ∈ ips
        · rw [if_pos hdup]
          exact ⟨m, rfl, ips, hl, hdup⟩
        · rw [if_neg hdup]
          obtain ⟨ips1, hl1, hmem1⟩ := lookup_addIp_self m (String.mk (trimGo t)) (String.mk ipMatch)
          exact ⟨_, rfl, ips1, hl1, hmem1⟩
      | none =>
        obtain ⟨ips1, hl1, hmem1⟩ := lookup_addIp_self m (String.mk (trimGo t)) (String.mk ipMatch)
        exact ⟨_, rfl, ips1, hl1, hmem1⟩
    · intro hin
      unfold processLine
      rw [hip]
      dsimp only
      rw [if_neg hexcl, hem]
      dsimp only
      rw [ht]
      dsimp only
      rw [if_pos hin]

/-- C5 counterexample: with the job constructed on penalty 5 (so a grace
threshold of effectively 10 ticks) and an inbound starting disabled with
counter 0, ten runs leave the inbound still disabled with counter 10 and no
restart signalled — it has not become enabled after 10 cycles as the claim
states; the reactivation happens on the following cycle. -/
theorem claim5_counterexample :
    iterRun 5 ⟨"", none⟩ 10 ⟨[⟨1, false, 0, "s"⟩], [], 0⟩ =
      some ⟨[⟨1, false, 10, "s"⟩], [], 0⟩ := by
  decide

/-- C5 amended: starting disabled with counter 0 under an effective
threshold of 10 ticks, the counter is incremented on each of the first ten
cycles with no restart signalled (the restart count stays 0 through cycle
10), and on the eleventh cycle the inbound becomes enabled with counter -1
and the restart is signalled exactly then. -/
theorem claim5_amended_reactivates_on_eleventh_cycle :
    ((List.range 11).all (fun k =>
      match iterRun 5 ⟨"", none⟩ k ⟨[⟨1, false, 0, "s"⟩], [], 0⟩ with
      | some s => s.restarts == 0
      | none => false)) = true ∧
    iterRun 5 ⟨"", none⟩ 11 ⟨[⟨1, false, 0, "s"⟩], [], 0⟩ =
      some ⟨[⟨1, true, -1, "s"⟩], [], 1⟩ := by
  decide

/-- C6 counterexample: with the access-log path set but the file
unreadable, the harvesting phase is not a no-op on the snapshot store: the
pre-existing snapshot row is deleted and the collection ends up empty. -/
theorem claim6_counterexample :
    processLogFile ⟨"access.log", none⟩ [] ⟨[], [⟨"old", ["9.9.9.9"]⟩], 0⟩ =
      some ⟨[], [], 0⟩ ∧
    (⟨[], [⟨"old", ["9.9.9.9"]⟩], 0⟩ : St).clientIps ≠ ([] : List InboundClientIps) := by
  decide

/-- C6 amended: when the access-log path is unset the harvesting phase is a
complete no-op (warning only); when the path is set but the file is
unreadable the run continues on empty data — no observation is produced, no
inbound enabled/penalty state changes and no restart is signalled, but the
snapshot collection is still cleared to empty. -/
theorem claim6_amended_degraded_run (env : LogEnv) (emails : List String) (st : St) :
    (env.accessLogPath = "" → processLogFile env emails st = some st) ∧
    (env.accessLogPath ≠ "" → env.readData = none →
      processLogFile env emails st = some { st with clientIps := [] }) := by
  constructor
  · intro hpath
    unfold processLogFile
    rw [if_pos hpath]
  · intro hpath hread
    obtain ⟨path, rd⟩ := env
    dsimp only at hpath hread
    subst hread
    unfold processLogFile
    rw [if_neg hpath]
    rfl

/-! ## Concrete witnesses -/

/-- Settings of the C1 witness inbound: contains the identity and a
parseable limit of 2. -/
def wSettings : String := "who is a@x\n\"limitIp\": 2\nrest"

/-- The C1 witness inbound: enabled, limit 2. -/
def wInbound : Inbound := ⟨7, true, 3, wSettings⟩

/-- The C1 witness state. -/
def wSt : St := ⟨[wInbound], [], 0⟩

/-- Three distinct observed IPs, exceeding the limit of 2. -/
def wIps : List String := ["10.0.0.1", "10.0.0.2", "10.0.0.3"]

theorem claim1_witness :
    (GetInboundByEmail wSt "a@x" = some wInbound ∧
      resolveLimitIp wInbound.settings = some 2 ∧ (0 : Int) < 2 ∧
      wInbound.enable = true ∧ (2 : Int) < (wIps.length : Int)) ∧
    (GetInboundClientIps wSt "a@x" wIps =
        (DisableInbound wSt wInbound.id, some ⟨"a@x", wIps⟩) ∧
      (DisableInbound wSt wInbound.id).restarts = wSt.restarts + 1 ∧
      ∀ j ∈ (DisableInbound wSt wInbound.id).inbounds, j.id = wInbound.id →
        j.enable = false ∧ j.penalty = 0) :=
  ⟨⟨by decide, by decide, by decide, by decide, by decide⟩,
   claim1_breach_disables_and_restarts_once wSt wInbound "a@x" wIps 2
     (by decide) (by decide) (by decide) (by decide) (by decide)⟩

/-- The C2 witness inbound: enabled, limit field present with value 0. -/
def w2Inbound : Inbound := ⟨4, true, 2, "is b@x\n\"limitIp\": 0\nrest"⟩

/-- The C2 witness state. -/
def w2St : St := ⟨[w2Inbound], [], 0⟩

/-- The C2 witness environment: a readable log yielding two distinct IPs
for the identity. -/
def w2Env : LogEnv := ⟨"a.log", some "p 10.0.0.1 email: b@x\nq 10.0.0.2 email: b@x"⟩

/-- The state after the C2 witness run: the inbound row untouched, the two
IPs persisted. -/
def w2StAfter : St := ⟨[w2Inbound], [⟨"b@x", ["10.0.0.1", "10.0.0.2"]⟩], 0⟩

theorem claim2_witness :
    (w2Inbound ∈ w2St.inbounds ∧ w2Inbound.enable = true ∧
      resolveLimitIp w2Inbound.settings = some 0 ∧
      (idsOf w2St.inbounds).Nodup ∧
      runCheckClientIpJob 1 w2Env w2St = some w2StAfter) ∧
    rowsWithId w2StAfter.inbounds w2Inbound.id = [w2Inbound] :=
  ⟨⟨by decide, by decide, by decide, by decide, by decide⟩,
   claim2_zero_limit_never_disabled 1 w2Env w2St w2StAfter w2Inbound
     (by decide) (by decide) (Or.inl (by decide)) (by decide) (by decide)⟩

/-- The C3 witness inbound: enabled, parseable limit 9. -/
def w3Inbound : Inbound := ⟨5, true, 0, "c@x\n\"limitIp\": 9\nz"⟩

/-- The C3 witness state, carrying a snapshot row from a previous run. -/
def w3St : St := ⟨[w3Inbound], [⟨"prev", ["7.7.7.7"]⟩], 0⟩

/-- The C3 witness environment: one observation for `c@x`. -/
def w3Env : LogEnv := ⟨"a.log", some "r 10.0.0.3 email: c@x"⟩

/-- The state after the C3 witness run: the stale row replaced by this
run's observation. -/
def w3StAfter : St := ⟨[w3Inbound], [⟨"c@x", ["10.0.0.3"]⟩], 0⟩

theorem claim3_witness :
    (w3Env.accessLogPath ≠ "" ∧
      runCheckClientIpJob 5 w3Env w3St = some w3StAfter) ∧
    (∃ m, processLines
        ((activateInboundsAfterPenalty (NewCheckClientIpJobPenalty 5) w3St).2)
        (linesOf w3Env) [] = some m ∧
      w3StAfter.clientIps = m.filterMap (fun p =>
        match emailLimitStatus
            ((activateInboundsAfterPenalty (NewCheckClientIpJobPenalty 5) w3St).1).inbounds
            p.1 with
        | some _ => some ⟨p.1, p.2⟩
        | none => none) ∧
      (∀ row ∈ w3StAfter.clientIps, (row.clientEmail, row.ips) ∈ m) ∧
      (∀ p ∈ m, (∃ l, emailLimitStatus
          ((activateInboundsAfterPenalty (NewCheckClientIpJobPenalty 5) w3St).1).inbounds
            p.1 = some l) →
        (⟨p.1, p.2⟩ : InboundClientIps) ∈ w3StAfter.clientIps)) :=
  ⟨⟨by decide, by decide⟩,
   claim3_amended_snapshot_rebuild 5 w3Env w3St w3StAfter (by decide) (by decide)⟩

/-- The C4 witness inbound: disabled, counter exactly at the doubled
threshold. -/
def w4Inbound : Inbound := ⟨2, false, 10, "s4"⟩

/-- The C4 witness state. -/
def w4St : St := ⟨[w4Inbound], [], 0⟩

theorem claim4_witness :
    (w4Inbound ∈ w4St.inbounds ∧ w4Inbound.enable = false ∧
      w4Inbound.penalty > -1 ∧
      NewCheckClientIpJobPenalty 5 ≤ w4Inbound.penalty ∧
      (idsOf w4St.inbounds).Nodup) ∧
    (NewCheckClientIpJobPenalty 5 = 5 * 2 ∧
      (∀ j ∈ ((activateInboundsAfterPenalty (NewCheckClientIpJobPenalty 5) w4St).1).inbounds,
        j.id = w4Inbound.id → j.enable = true ∧ j.penalty = -1) ∧
      w4St.restarts <
        ((activateInboundsAfterPenalty (NewCheckClientIpJobPenalty 5) w4St).1).restarts) :=
  ⟨⟨by decide, by decide, by decide, by decide, by decide⟩,
   claim4_reactivation_at_doubled_threshold 5 w4St w4Inbound
     (by decide) (by decide) (by decide) (by decide) (by decide)⟩

/-- The C7 witness inbound: disabled, mid-penalty. -/
def w7Inbound : Inbound := ⟨3, false, 2, "s7"⟩

/-- The C7 witness state. -/
def w7St : St := ⟨[w7Inbound], [], 0⟩

/-- The state after the C7 witness run: the counter incremented by one. -/
def w7StAfter : St := ⟨[⟨3, false, 3, "s7"⟩], [], 0⟩

theorem claim7_witness :
    (w7Inbound ∈ w7St.inbounds ∧ w7Inbound.enable = false ∧
      (0 : Int) ≤ w7Inbound.penalty ∧ (idsOf w7St.inbounds).Nodup ∧
      runCheckClientIpJob 5 ⟨"", none⟩ w7St = some w7StAfter) ∧
    ((∀ j ∈ ((activateInboundsAfterPenalty (NewCheckClientIpJobPenalty 5) w7St).1).inbounds,
        j.id = w7Inbound.id →
        (j.enable = false ∧ j.penalty = w7Inbound.penalty + 1) ∨
        (j.enable = true ∧ j.penalty = -1)) ∧
      (∀ j ∈ w7StAfter.inbounds, j.id = w7Inbound.id →
        ((j.enable = false ∧ j.penalty = w7Inbound.penalty + 1) ∨
         (j.enable = true ∧ j.penalty = -1) ∨
         (j.enable = false ∧ j.penalty = 0)) ∧
        (j.enable = false → 0 ≤ j.penalty → j.penalty ≠ 0 →
          w7Inbound.penalty < j.penalty))) :=
  ⟨⟨by decide, by decide, by decide, by decide, by decide⟩,
   claim7_penalty_counter_writes 5 ⟨"", none⟩ w7St w7StAfter w7Inbound
     (by decide) (by decide) (by decide) (by decide) (by decide)⟩

/-- The C8 witness inbound: exempt (counter -1). -/
def w8Inbound : Inbound := ⟨6, false, -1, "s8"⟩

/-- The C8 witness state. -/
def w8St : St := ⟨[w8Inbound], [], 0⟩

theorem claim8_witness :
    (w8Inbound ∈ w8St.inbounds ∧ w8Inbound.penalty = -1 ∧
      (idsOf w8St.inbounds).Nodup) ∧
    (w8Inbound ∉ GetInactivePenaltyInbounds w8St ∧
      rowsWithId ((activateInboundsAfterPenalty 10 w8St).1).inbounds w8Inbound.id =
        rowsWithId w8St.inbounds w8Inbound.id) :=
  ⟨⟨by decide, by decide, by decide⟩,
   claim8_exempt_inbound_untouched 10 w8St w8Inbound (by decide) (by decide) (by decide)⟩

/-- The C9 witness log lines: one loopback observation and one ordinary
observation for the same identity. -/
def w9Lines : List (List Char) :=
  [("a 127.0.0.1 email: u").data, ("b 9.9.9.9 email: u").data]

theorem claim9_witness :
    processLines [] w9Lines [] = some [("u", ["9.9.9.9"])] ∧
    ∀ p ∈ [("u", ["9.9.9.9"])], "127.0.0.1" ∉ p.2 ∧ "1.1.1.1" ∉ p.2 :=
  ⟨by decide,
   claim9_probe_addresses_never_counted [] w9Lines [("u", ["9.9.9.9"])] (by decide)⟩

theorem claim10_witness :
    (∀ email, email ∈ (activateInboundsAfterPenalty 10 (⟨[], [], 0⟩ : St)).2 ↔
      ∃ e, e ∈ GetInactivePenaltyInbounds (⟨[], [], 0⟩ : St) ∧ e.penalty < 10 ∧
        (unmarshalClients e.settings).head? = some email) ∧
    (∀ (emails : List String) (m : List (String × List String)) (line : List Char)
      (ipMatch emailMatch t : List Char),
      findIPv4 line = some ipMatch →
      ¬(String.mk ipMatch = "127.0.0.1" ∨ String.mk ipMatch = "1.1.1.1") →
      findEmailMatch line = some emailMatch →
      (splitGo emailSep emailMatch).get? 1 = some t →
      ((String.mk (trimGo t) ∉ emails →
        ∃ m1, processLine emails m line = some m1 ∧
          ∃ ips, lookupIps m1 (String.mk (trimGo t)) = some ips ∧ String.mk ipMatch ∈ ips) ∧
       (String.mk (trimGo t) ∈ emails → processLine emails m line = some m))) :=
  claim10_amended_first_client_exclusion 10 ⟨[], [], 0⟩

theorem claim6_witness :
    processLogFile ⟨"", some "x"⟩ [] ⟨[], [⟨"old", ["9.9.9.9"]⟩], 0⟩ =
      some ⟨[], [⟨"old", ["9.9.9.9"]⟩], 0⟩ ∧
    processLogFile ⟨"a.log", none⟩ ["e"] ⟨[], [⟨"old", ["9.9.9.9"]⟩], 0⟩ =
      some ⟨[], [], 0⟩ :=
  ⟨(claim6_amended_degraded_run ⟨"", some "x"⟩ [] ⟨[], [⟨"old", ["9.9.9.9"]⟩], 0⟩).1 rfl,
   (claim6_amended_degraded_run ⟨"a.log", none⟩ ["e"] ⟨[], [⟨"old", ["9.9.9.9"]⟩], 0⟩).2
     (by decide) rfl⟩
